import Mathlib

/-!
# OpenSearch Serverless lifecycle policy data source

Verification development for
`internal/service/opensearchserverless/lifecycle_policy_data_source.go`.

The data source's `Schema` and `Read` methods are embedded as pure Lean
functions.  The Go standard library and Terraform plugin framework
functions they call (`time.UnixMilli`, `Time.Format`, `strconv.Quote`,
`diag.Diagnostics`, `types.String`, the string validators) are embedded
from their library sources under the same names.
-/

namespace GoTime

/-! ## Go standard library, package `time` -/

def secondsPerMinute : Nat := 60
def secondsPerHour : Nat := 60 * secondsPerMinute
def secondsPerDay : Nat := 24 * secondsPerHour
def daysPer400Years : Nat := 365 * 400 + 97
def daysPer100Years : Nat := 365 * 100 + 24
def daysPer4Years : Nat := 365 * 4 + 1

/-- The year of the zero of the absolute time scale (`absoluteZeroYear`). -/
def absoluteZeroYear : Int := -292277022399

/-- Seconds from the internal epoch (year 1) to the Unix epoch:
`(1969*365 + 1969/4 - 1969/100 + 1969/400) * secondsPerDay`. -/
def unixToInternal : Int := (1969 * 365 + 1969 / 4 - 1969 / 100 + 1969 / 400) * 86400

/-- Seconds from the absolute zero to the internal epoch:
`-(absoluteZeroYear - internalYear) * 365.2425 * secondsPerDay`. -/
def internalToAbsolute : Int := 292277022400 * 31556952

/-- A time zone (`time.Location`), reduced to what `Format` reads from it:
the offset in seconds east of UTC in effect at a given Unix second. -/
structure Location where
  lookup : Int → Int

/-- The location `time.UTC`. -/
def UTC : Location := ⟨fun _ => 0⟩

/-- The location `time.FixedZone(name, offset)`. -/
def FixedZone (offset : Int) : Location := ⟨fun _ => offset⟩

/-- An instant (`time.Time`): Unix seconds, nanoseconds within the second,
and the location it is displayed in. -/
structure Time where
  sec : Int
  nsec : Int
  loc : Location

/-- Wrap an integer to the range of Go's `int64`. -/
def wrapInt64 (x : Int) : Int := (x + 2 ^ 63) % 2 ^ 64 - 2 ^ 63

/-- The function `time.Unix(sec, nsec)`, which returns the local Time: the
location is the process's `time.Local`, passed here as `localLoc`. -/
def Unix (localLoc : Location) (sec nsec : Int) : Time :=
  if nsec < 0 ∨ nsec ≥ 1000000000 then
    let n := Int.tdiv nsec 1000000000
    let sec1 := wrapInt64 (sec + n)
    let nsec1 := nsec - n * 1000000000
    if nsec1 < 0 then ⟨wrapInt64 (sec1 - 1), nsec1 + 1000000000, localLoc⟩
    else ⟨sec1, nsec1, localLoc⟩
  else ⟨sec, nsec, localLoc⟩

/-- The function `time.UnixMilli(msec)`:
`Unix(msec/1e3, (msec%1e3)*1e6)` with Go's truncating division. -/
def UnixMilli (localLoc : Location) (msec : Int) : Time :=
  Unix localLoc (Int.tdiv msec 1000) (Int.tmod msec 1000 * 1000000)

/-- The method `Time.locabs`: the zone offset in effect and the absolute
time (seconds since the absolute zero, a `uint64`) of the wall clock. -/
def Time.locabs (t : Time) : Int × Nat :=
  let offset := t.loc.lookup t.sec
  (offset, ((t.sec + offset + (unixToInternal + internalToAbsolute)) % 2 ^ 64).toNat)

/-- The function `time.isLeap`. -/
def isLeap (year : Int) : Bool :=
  year % 4 == 0 && (year % 100 != 0 || year % 400 == 0)

/-- The table `daysBefore`: days in a non-leap year before month `m + 1`. -/
def daysBefore (m : Nat) : Nat :=
  [0, 31, 59, 90, 120, 151, 181, 212, 243, 273, 304, 334, 365].getD m 0

/-- The year and the zero-based day of the year of an absolute time
(`absDate` up to its `!full` return). -/
def absYearDay (abs : Nat) : Int × Nat :=
  let d := abs / secondsPerDay
  -- Account for 400 year cycles.
  let n := d / daysPer400Years
  let y := 400 * n
  let d := d - daysPer400Years * n
  -- Cut off 100-year cycles.
  let n := d / daysPer100Years
  let n := n - n / 4
  let y := y + 100 * n
  let d := d - daysPer100Years * n
  -- Cut off 4-year cycles.
  let n := d / daysPer4Years
  let y := y + 4 * n
  let d := d - daysPer4Years * n
  -- Cut off years within a 4-year cycle.
  let n := d / 365
  let n := n - n / 4
  let y := y + n
  let d := d - 365 * n
  ((y : Int) + absoluteZeroYear, d)

/-- The month (1..12) and day of the month of a zero-based day of the year
(the `full` part of `absDate`); `leap` is `isLeap(year)`. -/
def monthDay (leap : Bool) (yday : Nat) : Nat × Nat :=
  if leap && yday == 31 + 29 - 1 then (2, 29)
  else
    let day := if leap && yday > 31 + 29 - 1 then yday - 1 else yday
    let month := day / 31
    let stop := daysBefore (month + 1)
    if day ≥ stop then (month + 2, day - stop + 1)
    else (month + 1, day - daysBefore month + 1)

/-- The function `absDate(abs, true)`: year, month, day of the month. -/
def absDate (abs : Nat) : Int × Nat × Nat :=
  let yd := absYearDay abs
  let md := monthDay (isLeap yd.1) yd.2
  (yd.1, md.1, md.2)

/-- The function `absClock`: hour, minute, second of the day. -/
def absClock (abs : Nat) : Nat × Nat × Nat :=
  let sec := abs % secondsPerDay
  let hour := sec / secondsPerHour
  let sec := sec - hour * secondsPerHour
  let min := sec / secondsPerMinute
  let sec := sec - min * secondsPerMinute
  (hour, min, sec)

/-- Decimal digits of `u`, most significant first; `fuel` bounds the number
of digits produced. -/
def digits : Nat → Nat → List Char
  | 0, _ => []
  | fuel + 1, u =>
    if u < 10 then [Char.ofNat (48 + u)]
    else digits fuel (u / 10) ++ [Char.ofNat (48 + u % 10)]

/-- The function `time.appendInt(b, x, width)`: a minus sign for a negative
`x`, then the decimal digits of its magnitude, zero-padded to `width`. -/
def appendInt (x : Int) (width : Nat) : List Char :=
  let u := x.natAbs
  let ds := digits 20 u
  (if x < 0 then ['-'] else []) ++ List.replicate (width - ds.length) '0' ++ ds

/-- The zone suffix of the layout element `Z07:00`. -/
def appendZone (offset : Int) : List Char :=
  if offset = 0 then ['Z']
  else
    let zone := Int.tdiv offset 60
    (if zone < 0 then ['-'] else ['+'])
      ++ appendInt (Int.tdiv zone.natAbs 60) 2 ++ [':'] ++ appendInt (Int.tmod zone.natAbs 60) 2

/-- The bytes `appendFormatRFC3339` writes for a date, a clock and a zone
suffix: `2006-01-02T15:04:05` followed by the zone. -/
def appendFields (year : Int) (month day hour min sec : Nat) (zone : List Char) : List Char :=
  appendInt year 4 ++ ['-'] ++ appendInt month 2 ++ ['-'] ++ appendInt day 2
    ++ ['T'] ++ appendInt hour 2 ++ [':'] ++ appendInt min 2 ++ [':']
    ++ appendInt sec 2 ++ zone

/-- The method `Time.Format(time.RFC3339)`, layout `2006-01-02T15:04:05Z07:00`
(`appendFormatRFC3339` without fractional seconds). -/
def Time.FormatRFC3339 (t : Time) : String :=
  let la := t.locabs
  let date := absDate la.2
  let clock := absClock la.2
  String.mk
    (appendFields date.1 date.2.1 date.2.2 clock.1 clock.2.1 clock.2.2 (appendZone la.1))

end GoTime

namespace strconv

/-! ## Go standard library, package `strconv` -/

/-- The digit table `lowerhex`. -/
def lowerhex (n : Nat) : Char := "0123456789abcdef".data.getD n '0'

/-- The function `strconv.IsPrint`.  Runes up to U+00FF are decided by the
fast path of the library; above it the library searches its Unicode tables
(`isPrint16`, `isNotPrint16`, `isPrint32`, `isNotPrint32`), passed here as
`table`. -/
def IsPrint (table : Char → Bool) (r : Char) : Bool :=
  if r.toNat ≤ 0xFF then
    if 0x20 ≤ r.toNat ∧ r.toNat ≤ 0x7E then true
    else if 0xA1 ≤ r.toNat ∧ r.toNat ≤ 0xFF then r.toNat != 0xAD
    else false
  else table r

/-- The function `appendEscapedRune(buf, r, '"', false, false)`. -/
def appendEscapedRune (table : Char → Bool) (r : Char) : List Char :=
  if r = '"' ∨ r = '\\' then ['\\', r]
  else if IsPrint table r then [r]
  else if r.toNat = 7 then ['\\', 'a']
  else if r.toNat = 8 then ['\\', 'b']
  else if r.toNat = 12 then ['\\', 'f']
  else if r = '\n' then ['\\', 'n']
  else if r = '\r' then ['\\', 'r']
  else if r = '\t' then ['\\', 't']
  else if r.toNat = 11 then ['\\', 'v']
  else if r.toNat < 0x20 ∨ r.toNat = 0x7f then
    ['\\', 'x', lowerhex (r.toNat / 16), lowerhex (r.toNat % 16)]
  else if r.toNat < 0x10000 then
    ['\\', 'u'] ++ (List.map (fun s => lowerhex (r.toNat / 2 ^ s % 16)) [12, 8, 4, 0])
  else
    ['\\', 'U'] ++ (List.map (fun s => lowerhex (r.toNat / 2 ^ s % 16)) [28, 24, 20, 16, 12, 8, 4, 0])

/-- The function `strconv.Quote` (what `fmt` prints for the verb `%q`): the
string between double quotes, with quotes, backslashes and unprintable
runes escaped. -/
def Quote (table : Char → Bool) (s : String) : String :=
  String.mk (['"'] ++ (s.data.map (appendEscapedRune table)).flatten ++ ['"'])

end strconv

/-- A Go `error` value, reduced to the text its `Error` method returns. -/
structure GoError where
  Error : String
deriving DecidableEq, Repr

namespace diag

/-! ## terraform-plugin-framework, package `diag` -/

inductive Severity where
  | SeverityError
  | SeverityWarning
deriving DecidableEq, Repr

/-- A diagnostic: severity, summary, detail and, for an attribute
diagnostic, the path of the attribute. -/
structure Diagnostic where
  Severity : Severity
  Summary : String
  Detail : String
  Path : Option String
deriving DecidableEq, Repr

def NewErrorDiagnostic (summary detail : String) : Diagnostic :=
  ⟨.SeverityError, summary, detail, none⟩

def NewAttributeErrorDiagnostic (path summary detail : String) : Diagnostic :=
  ⟨.SeverityError, summary, detail, some path⟩

abbrev Diagnostics := List Diagnostic

/-- The method `Diagnostics.Contains`. -/
def Diagnostics.Contains (diags : Diagnostics) (d : Diagnostic) : Bool :=
  diags.any (fun x => decide (x = d))

/-- The method `Diagnostics.Append`: appends each diagnostic that is not
already contained. -/
def Diagnostics.Append (diags : Diagnostics) (more : List Diagnostic) : Diagnostics :=
  more.foldl (fun acc d => if Diagnostics.Contains acc d then acc else acc ++ [d]) diags

/-- The method `Diagnostics.AddError`. -/
def Diagnostics.AddError (diags : Diagnostics) (summary detail : String) : Diagnostics :=
  Diagnostics.Append diags [NewErrorDiagnostic summary detail]

/-- The method `Diagnostics.HasError`. -/
def Diagnostics.HasError (diags : Diagnostics) : Bool :=
  diags.any (fun d => decide (d.Severity = .SeverityError))

/-- The method `Diagnostics.Errors`. -/
def Diagnostics.Errors (diags : Diagnostics) : Diagnostics :=
  diags.filter (fun d => decide (d.Severity = .SeverityError))

end diag

namespace basetypes

/-! ## terraform-plugin-framework, package `types/basetypes` -/

/-- The type `types.String` (`basetypes.StringValue`): null, unknown or a
known string. -/
inductive StringValue where
  | null
  | unknown
  | known (value : String)
deriving DecidableEq, Repr

def NewStringNull : StringValue := .null

def NewStringValue (value : String) : StringValue := .known value

def StringValue.IsNull : StringValue → Bool
  | .null => true
  | _ => false

def StringValue.IsUnknown : StringValue → Bool
  | .unknown => true
  | _ => false

/-- The method `ValueString`: the known value, or the empty string for
null and unknown. -/
def StringValue.ValueString : StringValue → String
  | .known v => v
  | _ => ""

/-- The method `String`: a human-readable rendering, `fmt.Sprintf("%q", v)`
for a known value. -/
def StringValue.String (table : Char → Bool) : StringValue → String
  | .null => "<null>"
  | .unknown => "<unknown>"
  | .known v => strconv.Quote table v

end basetypes

namespace validatordiag

/-! ## terraform-plugin-framework-validators, package `helpers/validatordiag` -/

def InvalidAttributeValueLengthDiagnostic (path description value : String) : diag.Diagnostic :=
  diag.NewAttributeErrorDiagnostic path "Invalid Attribute Value Length"
    ("Attribute " ++ path ++ " " ++ description ++ ", got: " ++ value)

def InvalidAttributeValueMatchDiagnostic (path description value : String) : diag.Diagnostic :=
  diag.NewAttributeErrorDiagnostic path "Invalid Attribute Value Match"
    ("Attribute " ++ path ++ " " ++ description ++ ", got: " ++ value)

end validatordiag

/-- The interface `validator.String` of terraform-plugin-framework,
reduced to its `ValidateString` method: from the attribute's path and its
configured value to the diagnostics the validator reports. -/
structure StringValidator where
  ValidateString : String → basetypes.StringValue → diag.Diagnostics

namespace stringvalidator

/-! ## terraform-plugin-framework-validators, package `stringvalidator` -/

/-- The function `len` of Go on a string: its number of bytes (UTF-8). -/
def len (s : String) : Nat := (s.data.map Char.utf8Size).sum

/-- The validator `stringvalidator.LengthBetween(minLength, maxLength)`:
null and unknown values are skipped; a known value is rejected when
`len(value)` is below `minLength` or above `maxLength`. -/
def LengthBetween (minLength maxLength : Nat) : StringValidator where
  ValidateString path v :=
    if v.IsNull || v.IsUnknown then []
    else
      let l := len v.ValueString
      if l < minLength ∨ l > maxLength then
        [validatordiag.InvalidAttributeValueLengthDiagnostic path
          ("string length must be between " ++ toString minLength ++ " and " ++ toString maxLength)
          (toString l)]
      else []

/-- The validator `stringvalidator.OneOf(values...)`: null and unknown
values are skipped; a known value is rejected when it equals none of
`values`. -/
def OneOf (table : Char → Bool) (values : List String) : StringValidator where
  ValidateString path v :=
    if v.IsNull || v.IsUnknown then []
    else if values.any (fun other => decide (v = basetypes.NewStringValue other)) then []
    else
      [validatordiag.InvalidAttributeValueMatchDiagnostic path
        ("value must be one of: ["
          ++ " ".intercalate (values.map (strconv.Quote table)) ++ "]")
        (v.String table)]

end stringvalidator

namespace enum

/-- Modelled from the spec: `enum.FrameworkValidate[T]()` of
`internal/enum`, which is not part of the sources.  The type constraint is
that the value "must be a member of the remote-defined type enumeration":
it accepts exactly the strings among `values`, the values of the
enumeration `T` (for this data source `awstypes.LifecyclePolicyType`). -/
def FrameworkValidate (table : Char → Bool) (values : List String) : StringValidator :=
  stringvalidator.OneOf table values

end enum

namespace flex

/-- Modelled from the spec: `flex.StringToFramework` of
`internal/framework/flex`, which is not part of the sources.  A remote
string field is "copied as returned" and "absent ... is a valid value":
a nil pointer becomes the null string, any other the known string it
points to. -/
def StringToFramework : Option String → basetypes.StringValue
  | none => basetypes.NewStringNull
  | some v => basetypes.NewStringValue v

/-- Modelled from the spec: `flex.StringValueToFramework` of
`internal/framework/flex`, which is not part of the sources.  A
string-typed value is "copied as returned"; the empty string, which stands
for an absent value, becomes the null string. -/
def StringValueToFramework (v : String) : basetypes.StringValue :=
  if v = "" then basetypes.NewStringNull else basetypes.NewStringValue v

end flex

namespace create

/-- Modelled from the spec: the constant `create.ErrActionReading` of
`internal/create`, which is not part of the sources: the action named by
a failed read is "reading". -/
def ErrActionReading : String := "reading"

/-- Modelled from the spec: `create.ProblemStandardMessage` of
`internal/create`, which is not part of the sources: "a single
human-readable message naming the action, the resource identifier
attempted, and the underlying cause".  `service` is the human-friendly
name of the service. -/
def ProblemStandardMessage (service action resource id : String) (gotError : GoError) : String :=
  action ++ " " ++ service ++ " " ++ resource ++ " (" ++ id ++ "): " ++ gotError.Error

end create

namespace aws

/-- The function `aws.ToInt64`: the value pointed to, or 0 for nil. -/
def ToInt64 : Option Int → Int
  | none => 0
  | some v => v

end aws

namespace document

/-- The interface `document.Interface` of the AWS SDK, reduced to its
`MarshalSmithyDocument` method, which returns the serialized bytes or an
error. -/
structure Interface where
  MarshalSmithyDocument : Except GoError String

end document

namespace awstypes

/-- The SDK type `types.LifecyclePolicyDetail`; a pointer field is an
`Option`, and so is `Policy`, an interface value that may be nil; `Type` is
the string-typed enumeration `LifecyclePolicyType`. -/
structure LifecyclePolicyDetail where
  CreatedDate : Option Int
  Description : Option String
  LastModifiedDate : Option Int
  Name : Option String
  Policy : Option document.Interface
  PolicyVersion : Option String
  Type_ : String

/-- The record `p` with a policy document that serializes to `b`. -/
def LifecyclePolicyDetail.serializingTo (p : LifecyclePolicyDetail) (b : String) :
    LifecyclePolicyDetail :=
  { p with Policy := some ⟨.ok b⟩ }

end awstypes

namespace opensearchserverless

open basetypes diag

def DSNameLifecyclePolicy : String := "Lifecycle Policy Data Source"

structure dataSourceLifecyclePolicyData where
  CreatedDate : StringValue
  Description : StringValue
  ID : StringValue
  LastModifiedDate : StringValue
  Name : StringValue
  Policy : StringValue
  PolicyVersion : StringValue
  Type_ : StringValue
deriving DecidableEq, Repr

/-- The type `schema.StringAttribute`. -/
structure StringAttribute where
  Required : Bool := false
  Optional : Bool := false
  Computed : Bool := false
  Validators : List StringValidator := []

/-- Modelled from the spec: `framework.IDAttribute()` of
`internal/framework`, which is not part of the sources: "a designated
local `id` field that mirrors `identifier`", computed and without
validators. -/
def IDAttribute : StringAttribute := { Computed := true }

/-- What the data source runs in: the process and the provider it is
configured with. -/
structure Runtime where
  /-- The location `time.Local` of the process. -/
  Local : GoTime.Location
  /-- The Unicode tables of `strconv.IsPrint`. -/
  isPrintTable : Char → Bool
  /-- The values of the enumeration `awstypes.LifecyclePolicyType`. -/
  LifecyclePolicyTypeValues : List String
  /-- The human-friendly name of the service `names.OpenSearchServerless`. -/
  serviceName : String
  /-- The finder `findLifecyclePolicyByNameAndType` on the connection
  `d.Meta().OpenSearchServerlessClient(ctx)`, from name and type. -/
  findLifecyclePolicyByNameAndType : String → String → Except GoError awstypes.LifecyclePolicyDetail

/-- The runtime `rt` with a remote service that answers every lookup with
the record `p`. -/
def Runtime.returning (rt : Runtime) (p : awstypes.LifecyclePolicyDetail) : Runtime :=
  { rt with findLifecyclePolicyByNameAndType := fun _ _ => .ok p }

/-- The method `Schema`: the attributes of `resp.Schema`, by name. -/
def Schema (rt : Runtime) : List (String × StringAttribute) :=
  [ ("created_date", { Computed := true }),
    ("description", { Computed := true }),
    ("id", IDAttribute),
    ("last_modified_date", { Computed := true }),
    ("name", { Required := true, Validators := [stringvalidator.LengthBetween 3 32] }),
    ("policy", { Computed := true }),
    ("policy_version", { Computed := true }),
    ("type", { Required := true,
               Validators :=
                [enum.FrameworkValidate rt.isPrintTable rt.LifecyclePolicyTypeValues] }) ]

/-- The error the framework reports for an attribute that is neither
required, optional nor computed. -/
def invalidDefinitionDiagnostic (path : String) : Diagnostic :=
  NewAttributeErrorDiagnostic path "Invalid Attribute Definition"
    ("Attribute missing Required, Optional, or Computed definition. "
      ++ "This is always a problem with the provider and should be reported to the "
      ++ "provider developer.")

/-- The error the framework reports for a configured value of a read-only
(computed, not optional) attribute. -/
def readOnlyDiagnostic (path : String) : Diagnostic :=
  NewAttributeErrorDiagnostic path "Invalid Configuration for Read-Only Attribute"
    ("Cannot set value for this attribute as the provider has marked it as read-only. "
      ++ "Remove the configuration line setting the value.\n\n"
      ++ "Refer to the provider documentation or contact the provider developers for "
      ++ "additional information about configurable and read-only attributes that are "
      ++ "supported.")

/-- The error the framework reports for a required attribute without a
configured value. -/
def missingRequiredDiagnostic (path : String) : Diagnostic :=
  NewAttributeErrorDiagnostic path "Missing Configuration for Required Attribute"
    ("Must set a configuration value for the " ++ path
      ++ " attribute as the provider has marked it as required.\n\n"
      ++ "Refer to the provider documentation or contact the provider developers for "
      ++ "additional information about configurable attributes that are required.")

/-- The framework's validation of one attribute (`AttributeValidate`) on
its configured value: an attribute without Required, Optional or Computed
is an error of the definition; a configured value of a read-only attribute
and a missing value of a required attribute are reported; then every
validator of the attribute runs and its diagnostics are appended. -/
def AttributeValidate (path : String) (a : StringAttribute) (v : StringValue) : Diagnostics :=
  if !a.Required && !a.Optional && !a.Computed then
    Diagnostics.Append [] [invalidDefinitionDiagnostic path]
  else
    let diags : Diagnostics := []
    let diags :=
      if a.Computed && !a.Optional && !v.IsNull then
        Diagnostics.Append diags [readOnlyDiagnostic path]
      else diags
    let diags :=
      if a.Required && v.IsNull then Diagnostics.Append diags [missingRequiredDiagnostic path]
      else diags
    a.Validators.foldl (fun acc val => Diagnostics.Append acc (val.ValidateString path v)) diags

/-- The framework's validation of a configuration against a schema
(`SchemaValidate`): every attribute is validated, in the order the
attributes are visited, and the diagnostics of each are appended. -/
def SchemaValidate (attrs : List (String × StringAttribute)) (config : String → StringValue) :
    Diagnostics :=
  attrs.foldl (fun acc na => Diagnostics.Append acc (AttributeValidate na.1 na.2 (config na.1))) []

/-- The diagnostics of validating the attribute `attr` of the schema on the
configured value `v`. -/
def validateAttribute (rt : Runtime) (attr : String) (v : StringValue) : Diagnostics :=
  match (Schema rt).lookup attr with
  | some a => AttributeValidate attr a v
  | none => []

/-- The type `datasource.ReadRequest`: `Config.Get` yields the decoded
configuration and the diagnostics of decoding it. -/
structure ReadRequest where
  ConfigGet : dataSourceLifecyclePolicyData × Diagnostics

/-- The type `datasource.ReadResponse`: the state (`none` until it is
set) and the diagnostics. -/
structure ReadResponse where
  State : Option dataSourceLifecyclePolicyData
  Diagnostics : Diagnostics
deriving DecidableEq

/-- The method `State.Set` on a value of the data source's model: the
state becomes that value; the model has exactly the schema's attributes,
so the conversion reports no diagnostics. -/
def StateSet (_state : Option dataSourceLifecyclePolicyData) (val : dataSourceLifecyclePolicyData) :
    Option dataSourceLifecyclePolicyData × Diagnostics :=
  (some val, [])

/-- The method `Read`: the response it leaves when it returns, or `none`
when it panics (the call of a method on the nil interface `out.Policy`). -/
def Read (rt : Runtime) (req : ReadRequest) (resp : ReadResponse) : Option ReadResponse :=
  let data := req.ConfigGet.1
  let resp := { resp with Diagnostics := resp.Diagnostics.Append req.ConfigGet.2 }
  if resp.Diagnostics.HasError then some resp
  else
    match rt.findLifecyclePolicyByNameAndType data.Name.ValueString data.Type_.ValueString with
    | .error err =>
      let summary := create.ProblemStandardMessage rt.serviceName create.ErrActionReading
        DSNameLifecyclePolicy (data.Name.String rt.isPrintTable) err
      some { resp with Diagnostics := resp.Diagnostics.AddError summary err.Error }
    | .ok out =>
      let data := { data with ID := flex.StringToFramework out.Name }
      let data := { data with Description := flex.StringToFramework out.Description }
      let data := { data with Name := flex.StringToFramework out.Name }
      let data := { data with Type_ := flex.StringValueToFramework out.Type_ }
      let data := { data with PolicyVersion := flex.StringToFramework out.PolicyVersion }
      let createdDate := GoTime.UnixMilli rt.Local (aws.ToInt64 out.CreatedDate)
      let data := { data with
        CreatedDate := flex.StringValueToFramework createdDate.FormatRFC3339 }
      let lastModifiedDate := GoTime.UnixMilli rt.Local (aws.ToInt64 out.LastModifiedDate)
      let data := { data with
        LastModifiedDate := flex.StringValueToFramework lastModifiedDate.FormatRFC3339 }
      -- policyBytes, err := out.Policy.MarshalSmithyDocument()
      match out.Policy with
      | none => none
      | some policy =>
        let (policyBytes, resp) :=
          match policy.MarshalSmithyDocument with
          | .error err =>
            let summary := create.ProblemStandardMessage rt.serviceName create.ErrActionReading
              DSNameLifecyclePolicy (data.Name.String rt.isPrintTable) err
            ("", { resp with Diagnostics := resp.Diagnostics.AddError summary err.Error })
          | .ok b => (b, resp)
        let pb := policyBytes
        let data := { data with Policy := flex.StringToFramework (some pb) }
        let set := StateSet resp.State data
        some { State := set.1, Diagnostics := resp.Diagnostics.Append set.2 }

end opensearchserverless

namespace Civil

/-! ## The civil calendar

Reference definitions of the proleptic Gregorian calendar, against which
the date arithmetic of package `time` is checked. -/

/-- Whether `year` is a leap year. -/
def isLeapYear (year : Int) : Bool :=
  decide (year % 4 = 0 ∧ (year % 100 ≠ 0 ∨ year % 400 = 0))

/-- Days from 1 January of the year 1 to 1 January of `year`. -/
def daysBeforeYear (year : Int) : Int :=
  365 * (year - 1) + (year - 1) / 4 - (year - 1) / 100 + (year - 1) / 400

/-- Days of the month `month` (1..12). -/
def daysInMonth (leap : Bool) (month : Nat) : Nat :=
  if month = 2 then (if leap then 29 else 28)
  else if month = 4 ∨ month = 6 ∨ month = 9 ∨ month = 11 then 30
  else 31

/-- Days of the year before the first of the month `month` (1..12). -/
def daysBeforeMonth (leap : Bool) (month : Nat) : Nat :=
  ((List.range (month - 1)).map (fun i => daysInMonth leap (i + 1))).sum

/-- Days from 1 January 1970 to the given date. -/
def unixDay (year : Int) (month day : Nat) : Int :=
  daysBeforeYear year - daysBeforeYear 1970
    + daysBeforeMonth (isLeapYear year) month + (day - 1 : Int)

/-- Seconds from 1970-01-01T00:00:00 to the given date and time of day. -/
def unixSeconds (year : Int) (month day hour min sec : Nat) : Int :=
  unixDay year month day * 86400 + hour * 3600 + min * 60 + sec

/-- The fields name a date of the calendar and a time of day. -/
structure Valid (year : Int) (month day hour min sec : Nat) : Prop where
  month_pos : 1 ≤ month
  month_le : month ≤ 12
  day_pos : 1 ≤ day
  day_le : day ≤ daysInMonth (isLeapYear year) month
  hour_lt : hour < 24
  min_lt : min < 60
  sec_lt : sec < 60

/-- The `2DIGIT` of RFC 3339 for a number below 100. -/
def twoDigits (n : Nat) : List Char := [Char.ofNat (48 + n / 10 % 10), Char.ofNat (48 + n % 10)]

/-- The `4DIGIT` of RFC 3339 for a number below 10000. -/
def fourDigits (n : Nat) : List Char :=
  [Char.ofNat (48 + n / 1000 % 10), Char.ofNat (48 + n / 100 % 10),
   Char.ofNat (48 + n / 10 % 10), Char.ofNat (48 + n % 10)]

/-- The `time-offset` of RFC 3339 for an offset of `offset` seconds east of
UTC, a whole number of minutes: `Z` for zero, otherwise the sign, the hours
and the minutes. -/
def timeOffset (offset : Int) : List Char :=
  if offset = 0 then ['Z']
  else
    (if offset < 0 then ['-'] else ['+'])
      ++ twoDigits (offset.natAbs / 3600) ++ [':'] ++ twoDigits (offset.natAbs / 60 % 60)

/-- The `date-time` of RFC 3339, without fraction of a second, for a date
of the years 0 to 9999: `full-date "T" partial-time time-offset`. -/
def rfc3339 (year : Int) (month day hour min sec : Nat) (offset : Int) : String :=
  String.mk (fourDigits year.toNat ++ ['-'] ++ twoDigits month ++ ['-'] ++ twoDigits day
    ++ ['T'] ++ twoDigits hour ++ [':'] ++ twoDigits min ++ [':'] ++ twoDigits sec
    ++ timeOffset offset)

end Civil

namespace Decimal

/-! ## Reading decimal numerals -/

/-- The value of a decimal digit. -/
def digitValue (c : Char) : Nat := c.toNat - 48

/-- The number a sequence of decimal digits denotes. -/
def ofDigits (l : List Char) : Nat := l.foldl (fun acc c => 10 * acc + digitValue c) 0

/-- The integer a decimal numeral with an optional minus sign denotes. -/
def parseInt : List Char → Int
  | '-' :: t => -(ofDigits t : Int)
  | l => (ofDigits l : Int)

end Decimal

namespace examples

open opensearchserverless

/-- The remote record of the end-to-end example. -/
def policyLp1 : awstypes.LifecyclePolicyDetail :=
  { CreatedDate := some 1700000000000, Description := some "desc",
    LastModifiedDate := some 1700003600000, Name := some "lp1",
    Policy := some ⟨.ok "\x7b\"Rules\":[]\x7d"⟩, PolicyVersion := some "v1",
    Type_ := "RETENTION" }

/-- A remote record whose policy document does not serialize. -/
def policyBroken : awstypes.LifecyclePolicyDetail :=
  { policyLp1 with Policy := some ⟨.error ⟨"unsupported document type"⟩⟩ }

/-- A remote record that carries no policy document. -/
def policyWithoutDocument : awstypes.LifecyclePolicyDetail :=
  { policyLp1 with Policy := none }

/-- A remote service holding one policy under the key `(name, type)`. -/
def serviceWith (name type : String) (p : awstypes.LifecyclePolicyDetail) :
    String → String → Except GoError awstypes.LifecyclePolicyDetail :=
  fun n t => if n = name ∧ t = type then .ok p else .error ⟨"couldn't find resource"⟩

/-- A process in the zone `loc` whose provider talks to `find`. -/
def runtimeIn (loc : GoTime.Location)
    (find : String → String → Except GoError awstypes.LifecyclePolicyDetail) : Runtime :=
  { Local := loc, isPrintTable := fun _ => true, LifecyclePolicyTypeValues := ["retention"],
    serviceName := "Amazon OpenSearch Serverless",
    findLifecyclePolicyByNameAndType := find }

/-- A read request for the key `(name, type)`: the computed attributes are
null in the configuration. -/
def requestFor (name type : String) : ReadRequest :=
  ⟨⟨.null, .null, .null, .null, .known name, .null, .null, .known type⟩, []⟩

/-- The response a read starts from. -/
def emptyResponse : ReadResponse := ⟨none, []⟩

/-- A configuration with the given name and type. -/
def configFor (name type : String) : String → basetypes.StringValue :=
  fun attr => if attr = "name" then .known name else if attr = "type" then .known type else .null

end examples

/-! ## Diagnostics -/

namespace diag

theorem Append_nil (diags : Diagnostics) : Diagnostics.Append diags [] = diags := rfl

theorem Contains_eq_false_of_HasError {diags : Diagnostics} (h : diags.HasError = false)
    (d : Diagnostic) (hd : d.Severity = .SeverityError) : diags.Contains d = false := by
  unfold Diagnostics.HasError at h
  unfold Diagnostics.Contains
  rw [List.any_eq_false] at h ⊢
  intro x hx hxd
  have := h x hx
  simp only [decide_eq_true_eq] at hxd this
  exact this (hxd ▸ hd)

theorem AddError_of_not_HasError {diags : Diagnostics} (h : diags.HasError = false)
    (summary detail : String) :
    diags.AddError summary detail = diags ++ [NewErrorDiagnostic summary detail] := by
  unfold Diagnostics.AddError Diagnostics.Append
  simp only [List.foldl_cons, List.foldl_nil]
  rw [Contains_eq_false_of_HasError h _ rfl]
  simp

theorem Errors_eq_nil_of_not_HasError {diags : Diagnostics} (h : diags.HasError = false) :
    diags.Errors = [] := by
  unfold Diagnostics.HasError at h
  unfold Diagnostics.Errors
  rw [List.any_eq_false] at h
  rw [List.filter_eq_nil_iff]
  exact h

end diag

/-! ## Rendering of names and messages -/

namespace strconv

theorem appendEscapedRune_plain (table : Char → Bool) (c : Char)
    (hp : IsPrint table c = true) (hq : c ≠ '"') (hb : c ≠ '\\') :
    appendEscapedRune table c = [c] := by
  unfold appendEscapedRune
  simp [hp, hq, hb]

theorem Quote_plain (table : Char → Bool) (s : String)
    (h : ∀ c ∈ s.data, IsPrint table c = true ∧ c ≠ '"' ∧ c ≠ '\\') :
    (Quote table s).data = ['"'] ++ s.data ++ ['"'] := by
  unfold Quote
  have key : ∀ l : List Char, (∀ c ∈ l, IsPrint table c = true ∧ c ≠ '"' ∧ c ≠ '\\') →
      (l.map (appendEscapedRune table)).flatten = l := by
    intro l
    induction l with
    | nil => intro _; rfl
    | cons a t ih =>
      intro hl
      have ha := hl a (List.mem_cons_self a t)
      rw [List.map_cons, List.flatten_cons, appendEscapedRune_plain table a ha.1 ha.2.1 ha.2.2,
        ih (fun c hc => hl c (List.mem_cons_of_mem a hc))]
      rfl
  rw [key s.data h]

end strconv

namespace create

theorem ProblemStandardMessage_data (service action resource id : String) (e : GoError) :
    (ProblemStandardMessage service action resource id e).data =
      action.data ++ (" ".data ++ service.data ++ " ".data ++ resource.data ++ " (".data)
        ++ id.data ++ "): ".data ++ e.Error.data := by
  unfold ProblemStandardMessage
  simp only [String.data_append, List.append_assoc]

theorem action_infix_message (service action resource id : String) (e : GoError) :
    action.data <:+: (ProblemStandardMessage service action resource id e).data := by
  rw [ProblemStandardMessage_data]
  refine ⟨[], (" ".data ++ service.data ++ " ".data ++ resource.data ++ " (".data)
    ++ id.data ++ "): ".data ++ e.Error.data, ?_⟩
  simp only [List.nil_append, List.append_assoc]

theorem id_infix_message (service action resource id : String) (e : GoError) :
    id.data <:+: (ProblemStandardMessage service action resource id e).data := by
  rw [ProblemStandardMessage_data]
  refine ⟨action.data ++ (" ".data ++ service.data ++ " ".data ++ resource.data ++ " (".data),
    "): ".data ++ e.Error.data, ?_⟩
  simp only [List.append_assoc]

theorem cause_infix_message (service action resource id : String) (e : GoError) :
    e.Error.data <:+: (ProblemStandardMessage service action resource id e).data := by
  rw [ProblemStandardMessage_data]
  refine ⟨action.data ++ (" ".data ++ service.data ++ " ".data ++ resource.data ++ " (".data)
    ++ id.data ++ "): ".data, [], ?_⟩
  simp only [List.append_nil, List.append_assoc]

end create

namespace GoTime

theorem appendZone_ne_nil (offset : Int) : appendZone offset ≠ [] := by
  unfold appendZone
  split
  · simp
  · intro h
    have h2 := congrArg List.length h
    simp at h2

theorem FormatRFC3339_ne_empty (t : Time) : t.FormatRFC3339 ≠ "" := by
  unfold Time.FormatRFC3339
  intro h
  have h2 := congrArg String.data h
  simp only [appendFields, List.append_assoc] at h2
  have h3 := congrArg List.length h2
  simp only [List.length_append, List.length_cons, List.length_nil] at h3
  omega

end GoTime

namespace flex

theorem StringValueToFramework_FormatRFC3339 (t : GoTime.Time) :
    StringValueToFramework t.FormatRFC3339 = .known t.FormatRFC3339 := by
  unfold StringValueToFramework
  rw [if_neg (GoTime.FormatRFC3339_ne_empty t)]
  rfl

theorem ValueString_StringValueToFramework (v : String) :
    (StringValueToFramework v).ValueString = v := by
  unfold StringValueToFramework
  split
  · next h => rw [h]; rfl
  · rfl

end flex

/-! ## The read operation -/

namespace opensearchserverless

open basetypes diag

theorem Read_of_lookup_error (rt : Runtime) (req : ReadRequest) (resp : ReadResponse)
    (err : GoError)
    (hget : (resp.Diagnostics.Append req.ConfigGet.2).HasError = false)
    (hfind : rt.findLifecyclePolicyByNameAndType req.ConfigGet.1.Name.ValueString
      req.ConfigGet.1.Type_.ValueString = .error err) :
    Read rt req resp = some
      { State := resp.State,
        Diagnostics := resp.Diagnostics.Append req.ConfigGet.2 ++
          [NewErrorDiagnostic
            (create.ProblemStandardMessage rt.serviceName create.ErrActionReading
              DSNameLifecyclePolicy (req.ConfigGet.1.Name.String rt.isPrintTable) err)
            err.Error] } := by
  unfold Read
  simp only [hget, hfind, Bool.false_eq_true, if_false]
  rw [AddError_of_not_HasError hget]

theorem Read_of_marshal_ok (rt : Runtime) (req : ReadRequest) (resp : ReadResponse)
    (out : awstypes.LifecyclePolicyDetail) (b : String)
    (hget : (resp.Diagnostics.Append req.ConfigGet.2).HasError = false)
    (hfind : rt.findLifecyclePolicyByNameAndType req.ConfigGet.1.Name.ValueString
      req.ConfigGet.1.Type_.ValueString = .ok out)
    (hdoc : out.Policy = some ⟨.ok b⟩) :
    Read rt req resp = some
      { State := some
          { CreatedDate := .known
              (GoTime.UnixMilli rt.Local (aws.ToInt64 out.CreatedDate)).FormatRFC3339,
            Description := flex.StringToFramework out.Description,
            ID := flex.StringToFramework out.Name,
            LastModifiedDate := .known
              (GoTime.UnixMilli rt.Local (aws.ToInt64 out.LastModifiedDate)).FormatRFC3339,
            Name := flex.StringToFramework out.Name,
            Policy := .known b,
            PolicyVersion := flex.StringToFramework out.PolicyVersion,
            Type_ := flex.StringValueToFramework out.Type_ },
        Diagnostics := resp.Diagnostics.Append req.ConfigGet.2 } := by
  unfold Read
  simp only [hget, hfind, hdoc, Bool.false_eq_true, if_false, StateSet, Append_nil,
    flex.StringValueToFramework_FormatRFC3339]
  rfl

theorem Read_of_marshal_error (rt : Runtime) (req : ReadRequest) (resp : ReadResponse)
    (out : awstypes.LifecyclePolicyDetail) (err : GoError)
    (hget : (resp.Diagnostics.Append req.ConfigGet.2).HasError = false)
    (hfind : rt.findLifecyclePolicyByNameAndType req.ConfigGet.1.Name.ValueString
      req.ConfigGet.1.Type_.ValueString = .ok out)
    (hdoc : out.Policy = some ⟨.error err⟩) :
    Read rt req resp = some
      { State := some
          { CreatedDate := .known
              (GoTime.UnixMilli rt.Local (aws.ToInt64 out.CreatedDate)).FormatRFC3339,
            Description := flex.StringToFramework out.Description,
            ID := flex.StringToFramework out.Name,
            LastModifiedDate := .known
              (GoTime.UnixMilli rt.Local (aws.ToInt64 out.LastModifiedDate)).FormatRFC3339,
            Name := flex.StringToFramework out.Name,
            Policy := .known "",
            PolicyVersion := flex.StringToFramework out.PolicyVersion,
            Type_ := flex.StringValueToFramework out.Type_ },
        Diagnostics := resp.Diagnostics.Append req.ConfigGet.2 ++
          [NewErrorDiagnostic
            (create.ProblemStandardMessage rt.serviceName create.ErrActionReading
              DSNameLifecyclePolicy
              ((flex.StringToFramework out.Name).String rt.isPrintTable) err)
            err.Error] } := by
  unfold Read
  simp only [hget, hfind, hdoc, Bool.false_eq_true, if_false, StateSet, Append_nil,
    flex.StringValueToFramework_FormatRFC3339]
  rw [AddError_of_not_HasError hget]
  rfl

theorem Read_of_nil_policy (rt : Runtime) (req : ReadRequest) (resp : ReadResponse)
    (out : awstypes.LifecyclePolicyDetail)
    (hget : (resp.Diagnostics.Append req.ConfigGet.2).HasError = false)
    (hfind : rt.findLifecyclePolicyByNameAndType req.ConfigGet.1.Name.ValueString
      req.ConfigGet.1.Type_.ValueString = .ok out)
    (hdoc : out.Policy = none) :
    Read rt req resp = none := by
  unfold Read
  simp only [hget, hfind, hdoc, Bool.false_eq_true, if_false]

end opensearchserverless

/-! ## Failure of the remote lookup -/

namespace opensearchserverless

open basetypes diag

set_option maxRecDepth 100000 in
/-- C4, as stated, fails: for the key (`a"b`, retention) and a lookup that
finds nothing, the single error's message renders the name as `"a\"b"`, so
the message does not contain the attempted name. -/
theorem Read_lookup_error_escapes_name :
    Read (examples.runtimeIn GoTime.UTC (fun _ _ => .error ⟨"couldn't find resource"⟩))
        (examples.requestFor "a\"b" "retention") examples.emptyResponse
      = some ⟨none, [NewErrorDiagnostic
          "reading Amazon OpenSearch Serverless Lifecycle Policy Data Source (\"a\\\"b\"): couldn't find resource"
          "couldn't find resource"]⟩
    ∧ ¬ ("a\"b".data <:+:
          "reading Amazon OpenSearch Serverless Lifecycle Policy Data Source (\"a\\\"b\"): couldn't find resource".data) := by
  constructor
  · decide
  · decide

/-- C4 (amended): when the configuration decoded without error and the
remote lookup for the key fails with `err`, `Read` returns having added
exactly one diagnostic, an error; its detail is the cause's text and its
summary contains the action `reading`, the attempted name in the quoted
rendering of the framework (`strconv.Quote`), and the cause's text.  When
every character of the name is printable and is neither a double quote nor
a backslash, the summary contains the name itself. -/
theorem Read_lookup_error_message (rt : Runtime) (req : ReadRequest) (resp : ReadResponse)
    (name : String) (err : GoError)
    (hget : (resp.Diagnostics.Append req.ConfigGet.2).HasError = false)
    (hname : req.ConfigGet.1.Name = .known name)
    (hfind : rt.findLifecyclePolicyByNameAndType name
      req.ConfigGet.1.Type_.ValueString = .error err) :
    ∃ (r : ReadResponse) (d : Diagnostic), Read rt req resp = some r ∧
      r.Diagnostics = resp.Diagnostics.Append req.ConfigGet.2 ++ [d] ∧
      r.Diagnostics.Errors = [d] ∧
      d.Severity = .SeverityError ∧ d.Detail = err.Error ∧
      "reading".data <:+: d.Summary.data ∧
      (strconv.Quote rt.isPrintTable name).data <:+: d.Summary.data ∧
      err.Error.data <:+: d.Summary.data ∧
      ((∀ c ∈ name.data, strconv.IsPrint rt.isPrintTable c = true ∧ c ≠ '"' ∧ c ≠ '\\') →
        name.data <:+: d.Summary.data) := by
  have hfind2 : rt.findLifecyclePolicyByNameAndType req.ConfigGet.1.Name.ValueString
      req.ConfigGet.1.Type_.ValueString = .error err := by
    rw [hname]; exact hfind
  refine ⟨_, _, Read_of_lookup_error rt req resp err hget hfind2, rfl, ?_, rfl, rfl, ?_, ?_, ?_,
    ?_⟩
  · show Diagnostics.Errors (_ ++ _) = _
    unfold Diagnostics.Errors
    rw [List.filter_append]
    have h0 := Errors_eq_nil_of_not_HasError hget
    unfold Diagnostics.Errors at h0
    rw [h0]
    rfl
  · exact create.action_infix_message _ _ _ _ _
  · show _ <:+: (create.ProblemStandardMessage _ _ _ _ _).data
    rw [hname]
    exact create.id_infix_message _ _ _ _ _
  · exact create.cause_infix_message _ _ _ _ _
  · intro hplain
    show _ <:+: (create.ProblemStandardMessage _ _ _ _ _).data
    rw [hname]
    refine List.IsInfix.trans ?_ (create.id_infix_message _ _ _ _ _)
    show name.data <:+: (strconv.Quote rt.isPrintTable name).data
    rw [strconv.Quote_plain rt.isPrintTable name hplain]
    exact ⟨['"'], ['"'], rfl⟩

set_option maxRecDepth 100000 in
/-- C4, witness: the key (my-policy, RETENTION) with zero matches gives one
error whose message contains `my-policy`. -/
theorem Read_lookup_error_message_witness :
    ∃ (r : ReadResponse) (d : Diagnostic),
      Read (examples.runtimeIn GoTime.UTC (fun _ _ => .error ⟨"couldn't find resource"⟩))
        (examples.requestFor "my-policy" "RETENTION") examples.emptyResponse = some r ∧
      r.Diagnostics = [d] ∧
      "reading".data <:+: d.Summary.data ∧
      "my-policy".data <:+: d.Summary.data ∧
      "couldn't find resource".data <:+: d.Summary.data := by
  obtain ⟨r, d, h0, h1, _, _, _, h5, _, h7, h8⟩ :=
    Read_lookup_error_message
      (examples.runtimeIn GoTime.UTC (fun _ _ => .error ⟨"couldn't find resource"⟩))
      (examples.requestFor "my-policy" "RETENTION") examples.emptyResponse "my-policy"
      ⟨"couldn't find resource"⟩ (by decide) rfl rfl
  exact ⟨r, d, h0, h1, h5, h8 (by decide), h7⟩

end opensearchserverless

/-! ## Failure of the document serialization, and the identifier -/

namespace opensearchserverless

open basetypes diag

/-- C3: when the lookup succeeds and the policy document of the remote
record fails to serialize with `err`, `Read` returns and the diagnostics of
the response have an error, one whose detail is the text of `err` and whose
summary carries it, although the name, the type and both timestamps of the
remote record were extracted into the record. -/
theorem Read_serialization_error (rt : Runtime) (req : ReadRequest) (resp : ReadResponse)
    (out : awstypes.LifecyclePolicyDetail) (err : GoError)
    (hget : (resp.Diagnostics.Append req.ConfigGet.2).HasError = false)
    (hfind : rt.findLifecyclePolicyByNameAndType req.ConfigGet.1.Name.ValueString
      req.ConfigGet.1.Type_.ValueString = .ok out)
    (hdoc : out.Policy = some ⟨.error err⟩) :
    ∃ r : ReadResponse, Read rt req resp = some r ∧
      r.Diagnostics.HasError = true ∧
      (∃ d ∈ r.Diagnostics,
        d.Severity = .SeverityError ∧ d.Detail = err.Error ∧
        "reading".data <:+: d.Summary.data ∧ err.Error.data <:+: d.Summary.data) ∧
      (∃ data, r.State = some data ∧
        data.Name = flex.StringToFramework out.Name ∧
        data.Type_.ValueString = out.Type_ ∧
        data.CreatedDate =
          .known (GoTime.UnixMilli rt.Local (aws.ToInt64 out.CreatedDate)).FormatRFC3339 ∧
        data.LastModifiedDate =
          .known (GoTime.UnixMilli rt.Local (aws.ToInt64 out.LastModifiedDate)).FormatRFC3339) := by
  refine ⟨_, Read_of_marshal_error rt req resp out err hget hfind hdoc, ?_,
    ⟨_, List.mem_append_right _ (List.mem_singleton_self _), rfl, rfl, ?_, ?_⟩,
    ⟨_, rfl, rfl, ?_, ?_, ?_⟩⟩
  · simp [Diagnostics.HasError, NewErrorDiagnostic]
  · exact create.action_infix_message _ _ _ _ _
  · exact create.cause_infix_message _ _ _ _ _
  · exact flex.ValueString_StringValueToFramework out.Type_
  · rfl
  · rfl

set_option maxRecDepth 100000 in
/-- C3, witness: the remote record lp1 with a document that does not
serialize. -/
theorem Read_serialization_error_witness :
    ∃ r : ReadResponse,
      Read (examples.runtimeIn GoTime.UTC
          (examples.serviceWith "lp1" "RETENTION" examples.policyBroken))
        (examples.requestFor "lp1" "RETENTION") examples.emptyResponse = some r ∧
      r.Diagnostics.HasError = true := by
  obtain ⟨r, h1, h2, _⟩ := Read_serialization_error
    (examples.runtimeIn GoTime.UTC (examples.serviceWith "lp1" "RETENTION" examples.policyBroken))
    (examples.requestFor "lp1" "RETENTION") examples.emptyResponse examples.policyBroken
    ⟨"unsupported document type"⟩ (by decide)
    (by simp [examples.runtimeIn, examples.serviceWith, examples.requestFor,
      StringValue.ValueString]) rfl
  exact ⟨r, h1, h2⟩

/-- C7: what `Read` does to `id` and `name` after a successful lookup.  For
a remote record that carries a policy document, whether or not it
serializes, `Read` returns and the record it stores has equal `id` and
`name`, both the name of the remote record whatever name the key carried,
both null when the remote record has no name.  For a remote record that
carries no policy document, `Read` panics on the call of
`out.Policy.MarshalSmithyDocument`: it returns no response and stores no
record. -/
theorem Read_id_eq_name (rt : Runtime) (req : ReadRequest) (resp : ReadResponse)
    (out : awstypes.LifecyclePolicyDetail)
    (hget : (resp.Diagnostics.Append req.ConfigGet.2).HasError = false)
    (hfind : rt.findLifecyclePolicyByNameAndType req.ConfigGet.1.Name.ValueString
      req.ConfigGet.1.Type_.ValueString = .ok out) :
    (∀ doc, out.Policy = some doc →
      ∃ (r : ReadResponse) (data : dataSourceLifecyclePolicyData),
        Read rt req resp = some r ∧ r.State = some data ∧
        data.ID = data.Name ∧
        data.Name = flex.StringToFramework out.Name ∧
        (∀ n, out.Name = some n → data.ID = .known n ∧ data.Name = .known n) ∧
        (out.Name = none → data.ID = .null ∧ data.Name = .null)) ∧
    (out.Policy = none → Read rt req resp = none) := by
  have hfields : ∀ data : dataSourceLifecyclePolicyData,
      data.ID = flex.StringToFramework out.Name → data.Name = flex.StringToFramework out.Name →
      data.ID = data.Name ∧ data.Name = flex.StringToFramework out.Name ∧
      (∀ n, out.Name = some n → data.ID = .known n ∧ data.Name = .known n) ∧
      (out.Name = none → data.ID = .null ∧ data.Name = .null) := by
    intro data h1 h2
    refine ⟨h1.trans h2.symm, h2, ?_, ?_⟩
    · intro n hn; rw [h1, h2, hn]; exact ⟨rfl, rfl⟩
    · intro hn; rw [h1, h2, hn]; exact ⟨rfl, rfl⟩
  constructor
  · intro doc hpol
    cases hdoc : doc.MarshalSmithyDocument with
    | error err =>
      have hp : out.Policy = some ⟨.error err⟩ := by rw [hpol, ← hdoc]
      exact ⟨_, _, Read_of_marshal_error rt req resp out err hget hfind hp, rfl,
        hfields _ rfl rfl⟩
    | ok b =>
      have hp : out.Policy = some ⟨.ok b⟩ := by rw [hpol, ← hdoc]
      exact ⟨_, _, Read_of_marshal_ok rt req resp out b hget hfind hp, rfl, hfields _ rfl rfl⟩
  · exact Read_of_nil_policy rt req resp out hget hfind

set_option maxRecDepth 100000 in
/-- C7, witness: the key names `LP1`, the remote record is named `lp1`.  With
its policy document, both `id` and `name` of the stored record are `lp1`;
without a policy document, `Read` panics and no record is stored. -/
theorem Read_id_eq_name_witness :
    (∃ (r : ReadResponse) (data : dataSourceLifecyclePolicyData),
      Read (examples.runtimeIn GoTime.UTC (fun _ _ => .ok examples.policyLp1))
        (examples.requestFor "LP1" "RETENTION") examples.emptyResponse = some r ∧
      r.State = some data ∧ data.ID = .known "lp1" ∧ data.Name = .known "lp1") ∧
    Read (examples.runtimeIn GoTime.UTC (fun _ _ => .ok examples.policyWithoutDocument))
      (examples.requestFor "LP1" "RETENTION") examples.emptyResponse = none := by
  constructor
  · obtain ⟨r, data, h0, h1, _, _, h4, _⟩ :=
      (Read_id_eq_name (examples.runtimeIn GoTime.UTC (fun _ _ => .ok examples.policyLp1))
        (examples.requestFor "LP1" "RETENTION") examples.emptyResponse examples.policyLp1
        (by decide) rfl).1 _ rfl
    exact ⟨r, data, h0, h1, h4 "lp1" rfl⟩
  · exact (Read_id_eq_name
      (examples.runtimeIn GoTime.UTC (fun _ _ => .ok examples.policyWithoutDocument))
      (examples.requestFor "LP1" "RETENTION") examples.emptyResponse
      examples.policyWithoutDocument (by decide) rfl).2 rfl

/-- C10: the two failure paths of `Read` differ in what they do to the
state.  When the lookup fails `Read` returns with the state of the response
left as it was.  When the lookup succeeds and only the serialization of the
document fails, `Read` returns with the state written: it is the record
`Read` stores for the same remote record with a document that serializes
(to any bytes `b`), except that `policy` is the known empty string. -/
theorem Read_failure_paths_state (rt : Runtime) (req : ReadRequest) (resp : ReadResponse)
    (hget : (resp.Diagnostics.Append req.ConfigGet.2).HasError = false) :
    (∀ err, rt.findLifecyclePolicyByNameAndType req.ConfigGet.1.Name.ValueString
        req.ConfigGet.1.Type_.ValueString = .error err →
      ∃ r : ReadResponse, Read rt req resp = some r ∧ r.State = resp.State) ∧
    (∀ out err, rt.findLifecyclePolicyByNameAndType req.ConfigGet.1.Name.ValueString
        req.ConfigGet.1.Type_.ValueString = .ok out →
      out.Policy = some ⟨.error err⟩ →
      ∀ b : String, ∃ (r' r : ReadResponse) (data : dataSourceLifecyclePolicyData),
        Read (rt.returning (out.serializingTo b)) req resp = some r' ∧
        r'.State = some data ∧
        data.Policy = .known b ∧
        Read rt req resp = some r ∧
        r.State = some { data with Policy := .known "" }) := by
  constructor
  · intro err hfind
    exact ⟨_, Read_of_lookup_error rt req resp err hget hfind, rfl⟩
  · intro out err hfind hdoc b
    refine ⟨_, _, _, Read_of_marshal_ok (rt.returning (out.serializingTo b)) req resp
      (out.serializingTo b) b hget rfl rfl, rfl, rfl,
      Read_of_marshal_error rt req resp out err hget hfind hdoc, ?_⟩
    simp only [Runtime.returning, awstypes.LifecyclePolicyDetail.serializingTo]

set_option maxRecDepth 100000 in
/-- C10, witness: a lookup that fails leaves the state unset; the record
lp1 with a document that does not serialize is stored with the empty
policy. -/
theorem Read_failure_paths_state_witness :
    (∃ r : ReadResponse,
      Read (examples.runtimeIn GoTime.UTC (fun _ _ => .error ⟨"couldn't find resource"⟩))
        (examples.requestFor "my-policy" "RETENTION") examples.emptyResponse = some r ∧
      r.State = none) ∧
    (Read (examples.runtimeIn GoTime.UTC (fun _ _ => .ok examples.policyBroken))
      (examples.requestFor "lp1" "RETENTION") examples.emptyResponse).map (fun r => r.State) =
      some (some ⟨.known "2023-11-14T22:13:20Z", .known "desc", .known "lp1",
        .known "2023-11-14T23:13:20Z", .known "lp1", .known "", .known "v1",
        .known "RETENTION"⟩) := by
  constructor
  · exact (Read_failure_paths_state
      (examples.runtimeIn GoTime.UTC (fun _ _ => .error ⟨"couldn't find resource"⟩))
      (examples.requestFor "my-policy" "RETENTION") examples.emptyResponse (by decide)).1
      ⟨"couldn't find resource"⟩ rfl
  · decide

end opensearchserverless

/-! ## Validation of the lookup key -/

namespace diag

theorem mem_Append (acc : Diagnostics) (more : List Diagnostic) (d : Diagnostic) :
    d ∈ Diagnostics.Append acc more ↔ d ∈ acc ∨ d ∈ more := by
  unfold Diagnostics.Append
  induction more generalizing acc with
  | nil => simp
  | cons x xs ih =>
    rw [List.foldl_cons, ih]
    by_cases hx : Diagnostics.Contains acc x = true
    · rw [if_pos hx]
      have hmem : x ∈ acc := by
        unfold Diagnostics.Contains at hx
        rw [List.any_eq_true] at hx
        obtain ⟨y, hy, hyx⟩ := hx
        simp only [decide_eq_true_eq] at hyx
        exact hyx ▸ hy
      constructor
      · rintro (h | h)
        · exact Or.inl h
        · exact Or.inr (List.mem_cons_of_mem _ h)
      · rintro (h | h)
        · exact Or.inl h
        · rcases List.mem_cons.mp h with h | h
          · exact Or.inl (h ▸ hmem)
          · exact Or.inr h
    · rw [if_neg hx]
      simp only [List.mem_append, List.mem_singleton, List.mem_cons]
      tauto

end diag

namespace stringvalidator

theorem len_eq_length_of_ascii (s : String) (h : ∀ c ∈ s.data, c.toNat < 128) :
    len s = s.length := by
  unfold len
  show _ = s.data.length
  have key : ∀ l : List Char, (∀ c ∈ l, c.toNat < 128) → (l.map Char.utf8Size).sum = l.length := by
    intro l
    induction l with
    | nil => intro _; rfl
    | cons a t ih =>
      intro hl
      have ha : a.toNat < 128 := hl a (List.mem_cons_self a t)
      have h1 : a.utf8Size = 1 := by
        unfold Char.utf8Size
        have : a.val ≤ 127 := by
          rw [UInt32.le_def]
          show a.val.toNat ≤ 127
          have : a.val.toNat = a.toNat := rfl
          omega
        simp [this]
      rw [List.map_cons, List.sum_cons, h1, ih (fun c hc => hl c (List.mem_cons_of_mem a hc)),
        List.length_cons]
      omega
  exact key s.data h

end stringvalidator

namespace diag

theorem Append_nil_singleton (d : Diagnostic) : Diagnostics.Append [] [d] = [d] := by
  simp [Diagnostics.Append, Diagnostics.Contains]

end diag

namespace stringvalidator

theorem LengthBetween_known (minLength maxLength : Nat) (path value : String) :
    (LengthBetween minLength maxLength).ValidateString path (.known value) =
      if len value < minLength ∨ len value > maxLength then
        [validatordiag.InvalidAttributeValueLengthDiagnostic path
          ("string length must be between " ++ toString minLength ++ " and "
            ++ toString maxLength)
          (toString (len value))]
      else [] := rfl

theorem OneOf_known (table : Char → Bool) (values : List String) (path value : String) :
    (OneOf table values).ValidateString path (.known value) =
      if value ∈ values then []
      else
        [validatordiag.InvalidAttributeValueMatchDiagnostic path
          ("value must be one of: ["
            ++ " ".intercalate (values.map (strconv.Quote table)) ++ "]")
          (strconv.Quote table value)] := by
  have hany : (values.any
      (fun other => decide (basetypes.StringValue.known value = basetypes.NewStringValue other)))
      = true ↔ value ∈ values := by
    rw [List.any_eq_true]
    constructor
    · rintro ⟨x, hx, hxe⟩
      simp only [decide_eq_true_eq, basetypes.NewStringValue,
        basetypes.StringValue.known.injEq] at hxe
      exact hxe ▸ hx
    · intro h
      exact ⟨value, h, by simp [basetypes.NewStringValue]⟩
  show (if (false || false) = true then [] else
    if (values.any (fun other =>
      decide (basetypes.StringValue.known value = basetypes.NewStringValue other))) = true
    then [] else _) = _
  by_cases h : value ∈ values
  · rw [if_pos h]
    simp only [Bool.or_self, Bool.false_eq_true, if_false, hany.mpr h, if_true]
  · rw [if_neg h]
    simp only [Bool.or_self, Bool.false_eq_true, if_false]
    rw [if_neg (fun hc => h (hany.mp hc))]
    rfl

end stringvalidator

namespace opensearchserverless

open basetypes diag

theorem validateAttribute_name (rt : Runtime) (name : String) :
    validateAttribute rt "name" (.known name) =
      if stringvalidator.len name < 3 ∨ stringvalidator.len name > 32 then
        [validatordiag.InvalidAttributeValueLengthDiagnostic "name"
          ("string length must be between " ++ toString 3 ++ " and " ++ toString 32)
          (toString (stringvalidator.len name))]
      else [] := by
  have h : validateAttribute rt "name" (.known name) =
      Diagnostics.Append [] ((stringvalidator.LengthBetween 3 32).ValidateString "name"
        (.known name)) := rfl
  rw [h, stringvalidator.LengthBetween_known]
  split
  · exact Append_nil_singleton _
  · rfl

theorem validateAttribute_type (rt : Runtime) (type : String) :
    validateAttribute rt "type" (.known type) =
      if type ∈ rt.LifecyclePolicyTypeValues then []
      else
        [validatordiag.InvalidAttributeValueMatchDiagnostic "type"
          ("value must be one of: ["
            ++ " ".intercalate (rt.LifecyclePolicyTypeValues.map (strconv.Quote rt.isPrintTable))
            ++ "]")
          (strconv.Quote rt.isPrintTable type)] := by
  have h : validateAttribute rt "type" (.known type) =
      Diagnostics.Append [] ((stringvalidator.OneOf rt.isPrintTable
        rt.LifecyclePolicyTypeValues).ValidateString "type" (.known type)) := rfl
  rw [h, stringvalidator.OneOf_known]
  split
  · rfl
  · exact Append_nil_singleton _

/-- What the framework reports for a read-only attribute without
validators: nothing for a null value. -/
theorem AttributeValidate_computed_null (path : String) :
    AttributeValidate path { Computed := true } .null = [] := rfl

theorem mem_SchemaValidate (attrs : List (String × StringAttribute))
    (config : String → StringValue) (d : Diagnostic) :
    d ∈ SchemaValidate attrs config ↔
      ∃ na ∈ attrs, d ∈ AttributeValidate na.1 na.2 (config na.1) := by
  unfold SchemaValidate
  have key : ∀ (acc : Diagnostics),
      d ∈ attrs.foldl
          (fun acc na => Diagnostics.Append acc (AttributeValidate na.1 na.2 (config na.1))) acc ↔
        d ∈ acc ∨ ∃ na ∈ attrs, d ∈ AttributeValidate na.1 na.2 (config na.1) := by
    induction attrs with
    | nil => intro acc; simp
    | cons x xs ih =>
      intro acc
      rw [List.foldl_cons, ih, mem_Append]
      simp only [List.mem_cons, exists_eq_or_imp]
      exact or_assoc
  rw [key []]
  simp

/-- The diagnostics of validating a key `(name, type)` against the schema,
in whatever order the attributes are visited: those of the attribute
`name`, those of the attribute `type`, and those of the read-only
attributes. -/
theorem mem_SchemaValidate_Schema (rt : Runtime) (attrs : List (String × StringAttribute))
    (config : String → StringValue) (hattrs : attrs.Perm (Schema rt)) (d : Diagnostic) :
    d ∈ SchemaValidate attrs config ↔
      d ∈ validateAttribute rt "name" (config "name") ∨
      d ∈ validateAttribute rt "type" (config "type") ∨
      ∃ a ∈ ["created_date", "description", "id", "last_modified_date", "policy",
          "policy_version"],
        d ∈ AttributeValidate a { Computed := true } (config a) := by
  rw [mem_SchemaValidate]
  simp only [hattrs.mem_iff]
  have hn : ∀ v, validateAttribute rt "name" v = AttributeValidate "name"
      { Required := true, Validators := [stringvalidator.LengthBetween 3 32] } v :=
    fun _ => rfl
  have ht : ∀ v, validateAttribute rt "type" v = AttributeValidate "type"
      { Required := true,
        Validators := [enum.FrameworkValidate rt.isPrintTable rt.LifecyclePolicyTypeValues] }
      v := fun _ => rfl
  rw [hn, ht]
  simp only [Schema, IDAttribute, List.mem_cons, List.mem_singleton, exists_eq_or_imp,
    exists_eq_left, List.not_mem_nil, false_and, exists_false, or_false]
  tauto

/-- C5, as stated, fails: the name `éé` has two characters, fewer than
three, and the name validator of the schema accepts it (its length in bytes
is four). -/
theorem name_validator_accepts_two_characters :
    "éé".length = 2 ∧
    validateAttribute (examples.runtimeIn GoTime.UTC (fun _ _ => .error ⟨""⟩)) "name"
      (.known "éé") = [] := by
  constructor
  · decide
  · rw [validateAttribute_name]
    decide

/-- C5 (amended): the name validator of the schema rejects a name, with the
single error `Invalid Attribute Value Length` on the attribute `name`, if
and only if its length in bytes (Go's `len`, the UTF-8 encoding) is less
than 3 or greater than 32, and reports nothing otherwise; for a name of
ASCII characters the length in bytes is the length in characters. -/
theorem name_validator_length (rt : Runtime) (name : String) :
    ((validateAttribute rt "name" (.known name)).HasError = true ↔
      (stringvalidator.len name < 3 ∨ stringvalidator.len name > 32)) ∧
    ((stringvalidator.len name < 3 ∨ stringvalidator.len name > 32) →
      ∃ d, validateAttribute rt "name" (.known name) = [d] ∧
        d.Severity = .SeverityError ∧ d.Summary = "Invalid Attribute Value Length" ∧
        d.Path = some "name") ∧
    ((3 ≤ stringvalidator.len name ∧ stringvalidator.len name ≤ 32) →
      validateAttribute rt "name" (.known name) = []) ∧
    ((∀ c ∈ name.data, c.toNat < 128) → stringvalidator.len name = name.length) := by
  rw [validateAttribute_name]
  refine ⟨?_, ?_, ?_, stringvalidator.len_eq_length_of_ascii name⟩
  · by_cases h : stringvalidator.len name < 3 ∨ stringvalidator.len name > 32
    · rw [if_pos h]
      simp [h, Diagnostics.HasError, validatordiag.InvalidAttributeValueLengthDiagnostic,
        NewAttributeErrorDiagnostic]
    · rw [if_neg h]
      simp [h, Diagnostics.HasError]
  · intro h
    rw [if_pos h]
    exact ⟨_, rfl, rfl, rfl, rfl⟩
  · intro h
    rw [if_neg (by omega)]

/-- C5, witness: names of exactly 3 and exactly 32 characters are
accepted, names of 2 and of 33 characters are rejected. -/
theorem name_validator_length_witness :
    validateAttribute (examples.runtimeIn GoTime.UTC (fun _ _ => .error ⟨""⟩)) "name"
      (.known "abc") = [] ∧
    validateAttribute (examples.runtimeIn GoTime.UTC (fun _ _ => .error ⟨""⟩)) "name"
      (.known "abcdefghijklmnopqrstuvwxyz012345") = [] ∧
    (validateAttribute (examples.runtimeIn GoTime.UTC (fun _ _ => .error ⟨""⟩)) "name"
      (.known "ab")).HasError = true ∧
    (validateAttribute (examples.runtimeIn GoTime.UTC (fun _ _ => .error ⟨""⟩)) "name"
      (.known "abcdefghijklmnopqrstuvwxyz0123456")).HasError = true :=
  ⟨(name_validator_length _ "abc").2.2.1 (by decide),
   (name_validator_length _ "abcdefghijklmnopqrstuvwxyz012345").2.2.1 (by decide),
   (name_validator_length _ "ab").1.mpr (by decide),
   (name_validator_length _ "abcdefghijklmnopqrstuvwxyz0123456").1.mpr (by decide)⟩

/-- C6: the type validator of the schema accepts a type string, reporting
nothing, if and only if it is one of the values of the enumeration
`awstypes.LifecyclePolicyType`; every other string is rejected with the
single error `Invalid Attribute Value Match` on the attribute `type`. -/
theorem type_validator_enum (rt : Runtime) (type : String) :
    (validateAttribute rt "type" (.known type) = [] ↔ type ∈ rt.LifecyclePolicyTypeValues) ∧
    (type ∉ rt.LifecyclePolicyTypeValues →
      ∃ d, validateAttribute rt "type" (.known type) = [d] ∧
        d.Severity = .SeverityError ∧ d.Summary = "Invalid Attribute Value Match" ∧
        d.Path = some "type") := by
  rw [validateAttribute_type]
  constructor
  · by_cases h : type ∈ rt.LifecyclePolicyTypeValues
    · rw [if_pos h]; simp [h]
    · rw [if_neg h]; simp [h]
  · intro h
    rw [if_neg h]
    exact ⟨_, rfl, rfl, rfl, rfl⟩

set_option maxRecDepth 100000 in
/-- C6, witness: with the enumeration of the one value `retention`, the type
`retention` is accepted and the type `RETENTION` is rejected. -/
theorem type_validator_enum_witness :
    validateAttribute (examples.runtimeIn GoTime.UTC (fun _ _ => .error ⟨""⟩)) "type"
      (.known "retention") = [] ∧
    (validateAttribute (examples.runtimeIn GoTime.UTC (fun _ _ => .error ⟨""⟩)) "type"
      (.known "RETENTION")).HasError = true := by
  refine ⟨(type_validator_enum _ "retention").1.mpr (by decide), ?_⟩
  obtain ⟨d, h, hs, _, _⟩ := (type_validator_enum
    (examples.runtimeIn GoTime.UTC (fun _ _ => .error ⟨""⟩)) "RETENTION").2 (by decide)
  rw [h]
  simp [Diagnostics.HasError, hs]

set_option maxRecDepth 100000 in
/-- C9, as stated, fails: the key (`éé`, `bogus`) has a name of two
characters, outside the range 3..32, and a type that is not a value of the
enumeration, and the validation of the schema reports the match error on
`type` alone: no length error. -/
theorem SchemaValidate_two_characters_one_error :
    "éé".length = 2 ∧
    "bogus" ∉ (examples.runtimeIn GoTime.UTC (fun _ _ => .error ⟨""⟩)).LifecyclePolicyTypeValues ∧
    SchemaValidate (Schema (examples.runtimeIn GoTime.UTC (fun _ _ => .error ⟨""⟩)))
        (examples.configFor "éé" "bogus") =
      [validatordiag.InvalidAttributeValueMatchDiagnostic "type"
        "value must be one of: [\"retention\"]" "\"bogus\""] := by
  refine ⟨by decide, by decide, ?_⟩
  decide

/-- C9 (amended): the two constraints are checked independently and every
violation is reported.  In whatever order the framework visits the
attributes of the schema, for a key whose name has a length in bytes (Go's
`len`) outside 3..32 and whose type is not a value of the enumeration, the
diagnostics of the validation hold both a length error on `name` and a
match error on `type`; when the read-only attributes are not configured,
every diagnostic reported is one of the two. -/
theorem SchemaValidate_reports_both (rt : Runtime) (attrs : List (String × StringAttribute))
    (config : String → StringValue) (name type : String)
    (hattrs : attrs.Perm (Schema rt))
    (hname : config "name" = .known name) (htype : config "type" = .known type)
    (hlen : stringvalidator.len name < 3 ∨ stringvalidator.len name > 32)
    (henum : type ∉ rt.LifecyclePolicyTypeValues) :
    ∃ d1 d2 : Diagnostic,
      d1 ∈ SchemaValidate attrs config ∧ d2 ∈ SchemaValidate attrs config ∧
      d1.Severity = .SeverityError ∧ d1.Summary = "Invalid Attribute Value Length" ∧
      d1.Path = some "name" ∧
      d2.Severity = .SeverityError ∧ d2.Summary = "Invalid Attribute Value Match" ∧
      d2.Path = some "type" ∧
      ((∀ a ∈ ["created_date", "description", "id", "last_modified_date", "policy",
          "policy_version"], config a = .null) →
        ∀ d ∈ SchemaValidate attrs config, d = d1 ∨ d = d2) := by
  have hmem := mem_SchemaValidate_Schema rt attrs config hattrs
  rw [hname, htype, validateAttribute_name, validateAttribute_type, if_pos hlen,
    if_neg henum] at hmem
  refine ⟨_, _, (hmem _).mpr (Or.inl (List.mem_singleton_self _)),
    (hmem _).mpr (Or.inr (Or.inl (List.mem_singleton_self _))), rfl, rfl, rfl, rfl, rfl, rfl, ?_⟩
  intro hnull d hd
  rcases (hmem d).mp hd with h | h | ⟨a, ha, h⟩
  · exact Or.inl (List.mem_singleton.mp h)
  · exact Or.inr (List.mem_singleton.mp h)
  · rw [hnull a ha, AttributeValidate_computed_null] at h
    exact absurd h (List.not_mem_nil d)

set_option maxRecDepth 100000 in
/-- C9, witness: the key (`ab`, `bogus`) gets both errors. -/
theorem SchemaValidate_reports_both_witness :
    ∃ d1 d2 : Diagnostic,
      d1 ∈ SchemaValidate (Schema (examples.runtimeIn GoTime.UTC (fun _ _ => .error ⟨""⟩)))
        (examples.configFor "ab" "bogus") ∧
      d2 ∈ SchemaValidate (Schema (examples.runtimeIn GoTime.UTC (fun _ _ => .error ⟨""⟩)))
        (examples.configFor "ab" "bogus") ∧
      d1.Summary = "Invalid Attribute Value Length" ∧
      d2.Summary = "Invalid Attribute Value Match" := by
  obtain ⟨d1, d2, h1, h2, _, h4, _, _, h7, _, _⟩ :=
    SchemaValidate_reports_both (examples.runtimeIn GoTime.UTC (fun _ _ => .error ⟨""⟩))
      (Schema (examples.runtimeIn GoTime.UTC (fun _ _ => .error ⟨""⟩)))
      (examples.configFor "ab" "bogus") "ab" "bogus" (List.Perm.refl _) rfl rfl
      (by decide) (by decide)
  exact ⟨d1, d2, h1, h2, h4, h7⟩

end opensearchserverless

/-! ## Dates and times -/

namespace GoTime

open Decimal

theorem tdiv_tmod_of_nonneg (a b : Int) (ha : 0 ≤ a) (hb : 0 < b) :
    a.tdiv b = a / b ∧ a.tmod b = a % b :=
  ⟨Int.tdiv_eq_ediv ha (le_of_lt hb), Int.tmod_eq_emod ha (le_of_lt hb)⟩

theorem tdiv_tmod_of_neg (a b : Int) (ha : a < 0) (hb : 0 < b) :
    a.tdiv b = -((-a) / b) ∧ a.tmod b = -((-a) % b) := by
  have h1 : a.tdiv b = -((-a) / b) := by
    have := Int.neg_tdiv (-a) b
    rw [neg_neg] at this
    rw [this, Int.tdiv_eq_ediv (by omega) (le_of_lt hb)]
  refine ⟨h1, ?_⟩
  rw [Int.tmod_def, h1, Int.emod_def]
  ring

theorem wrapInt64_of_range (x : Int) (h1 : -9223372036854775808 ≤ x)
    (h2 : x < 9223372036854775808) : wrapInt64 x = x := by
  unfold wrapInt64
  norm_num
  omega

/-- The instant `time.UnixMilli` builds from a value of Go's `int64`: the
whole seconds are the floor of `msec / 1000`. -/
theorem UnixMilli_eq (loc : Location) (msec : Int)
    (h1 : -9223372036854775808 ≤ msec) (h2 : msec < 9223372036854775808) :
    UnixMilli loc msec = ⟨msec / 1000, msec % 1000 * 1000000, loc⟩ := by
  unfold UnixMilli Unix
  by_cases hm : 0 ≤ msec
  · obtain ⟨hq, hr⟩ := tdiv_tmod_of_nonneg msec 1000 hm (by norm_num)
    rw [hq, hr]
    have : ¬ (msec % 1000 * 1000000 < 0 ∨ msec % 1000 * 1000000 ≥ 1000000000) := by omega
    rw [if_neg this]
  · obtain ⟨hq, hr⟩ := tdiv_tmod_of_neg msec 1000 (by omega) (by norm_num)
    rw [hq, hr]
    by_cases hz : (-msec) % 1000 = 0
    · rw [hz]
      simp only [neg_zero, zero_mul, lt_self_iff_false, ge_iff_le, false_or]
      rw [if_neg (by norm_num)]
      congr 1 <;> omega
    · have hneg : -(-msec % 1000) * 1000000 < 0 := by omega
      rw [if_pos (Or.inl hneg)]
      obtain ⟨hq2, -⟩ := tdiv_tmod_of_neg (-(-msec % 1000) * 1000000) 1000000000 hneg
        (by norm_num)
      have hn0 : (-(-(-msec % 1000) * 1000000)) / 1000000000 = 0 := by omega
      simp only [hq2, hn0, neg_zero, add_zero, zero_mul, sub_zero]
      rw [if_pos hneg, wrapInt64_of_range (-(-msec / 1000)) (by omega) (by omega),
        wrapInt64_of_range _ (by omega) (by omega)]
      congr 1 <;> omega

theorem locabs_eq (loc : Location) (sec nsec : Int)
    (h1 : -9223372036854776 ≤ sec) (h2 : sec < 9223372036854776)
    (h3 : -2147483648 ≤ loc.lookup sec) (h4 : loc.lookup sec < 2147483648) :
    (Time.locabs ⟨sec, nsec, loc⟩).1 = loc.lookup sec ∧
    (((Time.locabs ⟨sec, nsec, loc⟩).2 : Nat) : Int)
      = sec + loc.lookup sec + (unixToInternal + internalToAbsolute) := by
  unfold Time.locabs unixToInternal internalToAbsolute
  refine ⟨rfl, ?_⟩
  simp only
  generalize loc.lookup sec = off at *
  norm_num
  omega

theorem yearDay_arith (D : Nat) :
    let n := D / 146097
    let d1 := D - 146097 * n
    let a0 := d1 / 36524
    let a := a0 - a0 / 4
    let d2 := d1 - 36524 * a
    let b := d2 / 1461
    let d3 := d2 - 1461 * b
    let c0 := d3 / 365
    let c := c0 - c0 / 4
    let yd := d3 - 365 * c
    let y := 400 * n + 100 * a + 4 * b + c
    D = 365 * y + y / 4 - y / 100 + y / 400 + yd ∧
    (yd < 365 ∨ (yd = 365 ∧ (y + 1) % 4 = 0 ∧ ((y + 1) % 100 ≠ 0 ∨ (y + 1) % 400 = 0))) := by
  intro n d1 a0 a d2 b d3 c0 c yd y
  have hd1 : d1 < 146097 := by omega
  have ha0 : a0 ≤ 4 := by omega
  have ha : a ≤ 3 := by omega
  have hd2 : d2 ≤ 36524 := by omega
  have hb : b ≤ 24 := by omega
  have hd3 : d3 ≤ 1460 := by omega
  have hc0 : c0 ≤ 4 := by omega
  have hc : c ≤ 3 := by omega
  have hyd : yd ≤ 365 := by omega
  have hD : D = 146097 * n + 36524 * a + 1461 * b + 365 * c + yd := by omega
  have h4 : y / 4 = 100 * n + 25 * a + b := by omega
  have h100 : y / 100 = 4 * n + a := by omega
  have h400 : y / 400 = n := by omega
  refine ⟨by omega, ?_⟩
  by_cases h : yd < 365
  · exact Or.inl h
  · right
    have hyd365 : yd = 365 := by omega
    have hc3 : c = 3 := by omega
    refine ⟨hyd365, by omega, ?_⟩
    by_cases hb24 : b = 24
    · right
      have : a = 3 := by omega
      omega
    · left
      omega

theorem isLeap_iff (year : Int) :
    isLeap year = true ↔ (year % 4 = 0 ∧ (year % 100 ≠ 0 ∨ year % 400 = 0)) := by
  simp only [isLeap, Bool.and_eq_true, Bool.or_eq_true, beq_iff_eq, bne_iff_ne, ne_eq]

theorem isLeap_eq_isLeapYear (year : Int) : isLeap year = Civil.isLeapYear year := by
  rw [Bool.eq_iff_iff, isLeap_iff]
  simp [Civil.isLeapYear]

/-- The year and day of the year `absYearDay` computes count the days since
the absolute zero. -/
theorem absYearDay_spec (abs : Nat) :
    ∃ y yd : Nat, absYearDay abs = ((y : Int) + absoluteZeroYear, yd) ∧
      abs / 86400 = 365 * y + y / 4 - y / 100 + y / 400 + yd ∧
      (yd < 365 ∨ (yd = 365 ∧ isLeap ((y : Int) + absoluteZeroYear) = true)) := by
  obtain ⟨h1, h2⟩ := yearDay_arith (abs / 86400)
  refine ⟨_, _, ?_, h1, ?_⟩
  · rfl
  rcases h2 with h2 | ⟨h2, h3, h4⟩
  · exact Or.inl h2
  · refine Or.inr ⟨h2, ?_⟩
    rw [isLeap_iff]
    unfold absoluteZeroYear
    constructor
    · omega
    · rcases h4 with h4 | h4
      · left; omega
      · right; omega

set_option maxRecDepth 100000 in
theorem monthDay_spec_fin : ∀ leap : Bool, ∀ yd : Fin 366, (yd.val < 365 ∨ leap = true) →
    1 ≤ (monthDay leap yd.val).1 ∧ (monthDay leap yd.val).1 ≤ 12 ∧
    1 ≤ (monthDay leap yd.val).2 ∧
    (monthDay leap yd.val).2 ≤ Civil.daysInMonth leap (monthDay leap yd.val).1 ∧
    Civil.daysBeforeMonth leap (monthDay leap yd.val).1 + (monthDay leap yd.val).2 = yd.val + 1 := by
  decide

theorem monthDay_spec (leap : Bool) (yd : Nat) (h : yd < 365 ∨ (yd = 365 ∧ leap = true)) :
    1 ≤ (monthDay leap yd).1 ∧ (monthDay leap yd).1 ≤ 12 ∧
    1 ≤ (monthDay leap yd).2 ∧
    (monthDay leap yd).2 ≤ Civil.daysInMonth leap (monthDay leap yd).1 ∧
    Civil.daysBeforeMonth leap (monthDay leap yd).1 + (monthDay leap yd).2 = yd + 1 := by
  have hlt : yd < 366 := by omega
  exact monthDay_spec_fin leap ⟨yd, hlt⟩ (by rcases h with h | h; exact Or.inl h; exact Or.inr h.2)

theorem absClock_spec (abs : Nat) :
    (absClock abs).1 < 24 ∧ (absClock abs).2.1 < 60 ∧ (absClock abs).2.2 < 60 ∧
    (absClock abs).1 * 3600 + (absClock abs).2.1 * 60 + (absClock abs).2.2 = abs % 86400 := by
  simp only [absClock, secondsPerDay, secondsPerHour, secondsPerMinute]
  omega

/-- The date and clock `Format` reads off the absolute time `abs` of the
wall-clock second `w` are the civil date and time of `w`. -/
theorem absDate_absClock_spec (w : Int) (abs : Nat)
    (habs : (abs : Int) = w + (unixToInternal + internalToAbsolute)) :
    Civil.Valid (absDate abs).1 (absDate abs).2.1 (absDate abs).2.2
      (absClock abs).1 (absClock abs).2.1 (absClock abs).2.2 ∧
    Civil.unixSeconds (absDate abs).1 (absDate abs).2.1 (absDate abs).2.2
      (absClock abs).1 (absClock abs).2.1 (absClock abs).2.2 = w := by
  obtain ⟨y, yd, hyd, hD, hleap⟩ := absYearDay_spec abs
  obtain ⟨c1, c2, c3, c4⟩ := absClock_spec abs
  obtain ⟨m1, m2, m3, m4, m5⟩ := monthDay_spec (isLeap ((y : Int) + absoluteZeroYear)) yd hleap
  have hdate : absDate abs = ((y : Int) + absoluteZeroYear,
      (monthDay (isLeap ((y : Int) + absoluteZeroYear)) yd).1,
      (monthDay (isLeap ((y : Int) + absoluteZeroYear)) yd).2) := by
    unfold absDate
    rw [hyd]
  rw [hdate]
  simp only [Civil.unixSeconds, Civil.unixDay, Civil.daysBeforeYear]
  rw [← isLeap_eq_isLeapYear]
  generalize (monthDay (isLeap ((y : Int) + absoluteZeroYear)) yd).1 = mo at *
  generalize (monthDay (isLeap ((y : Int) + absoluteZeroYear)) yd).2 = dd at *
  refine ⟨⟨m1, m2, m3, by rw [← isLeap_eq_isLeapYear]; exact m4, c1, c2, c3⟩, ?_⟩
  generalize Civil.daysBeforeMonth (isLeap ((y : Int) + absoluteZeroYear)) mo = dbm at *
  unfold unixToInternal internalToAbsolute at habs
  unfold absoluteZeroYear
  generalize (absClock abs).1 = hh at *
  generalize (absClock abs).2.1 = mi at *
  generalize (absClock abs).2.2 = ss at *
  omega

theorem digitValue_digit : ∀ k : Fin 10, digitValue (Char.ofNat (48 + k.val)) = k.val := by
  decide

theorem digit_ne_minus : ∀ k : Fin 10, Char.ofNat (48 + k.val) ≠ '-' := by
  decide

theorem ofDigits_append_singleton (l : List Char) (c : Char) :
    ofDigits (l ++ [c]) = 10 * ofDigits l + digitValue c := by
  simp [ofDigits, List.foldl_append]

theorem ofDigits_digits (fuel u : Nat) (h : u < 10 ^ fuel) : ofDigits (digits fuel u) = u := by
  induction fuel generalizing u with
  | zero => simp at h; subst h; rfl
  | succ f ih =>
    unfold digits
    by_cases hu : u < 10
    · rw [if_pos hu]
      have := digitValue_digit ⟨u, hu⟩
      simpa [ofDigits] using this
    · rw [if_neg hu, ofDigits_append_singleton, ih (u / 10) (by rw [pow_succ] at h; omega)]
      have := digitValue_digit ⟨u % 10, Nat.mod_lt _ (by norm_num)⟩
      simp only at this
      rw [this]
      omega

theorem digits_ne_minus (fuel u : Nat) : ∀ c ∈ digits fuel u, c ≠ '-' := by
  induction fuel generalizing u with
  | zero => intro c hc; simp [digits] at hc
  | succ f ih =>
    intro c hc
    unfold digits at hc
    by_cases hu : u < 10
    · rw [if_pos hu] at hc
      rw [List.mem_singleton] at hc
      rw [hc]
      exact digit_ne_minus ⟨u, hu⟩
    · rw [if_neg hu, List.mem_append, List.mem_singleton] at hc
      rcases hc with hc | hc
      · exact ih _ c hc
      · rw [hc]
        exact digit_ne_minus ⟨u % 10, Nat.mod_lt _ (by norm_num)⟩

theorem digits_ne_nil (fuel u : Nat) : digits (fuel + 1) u ≠ [] := by
  unfold digits
  split <;> simp

theorem ofDigits_zeros (k : Nat) (l : List Char) :
    ofDigits (List.replicate k '0' ++ l) = ofDigits l := by
  induction k with
  | zero => rfl
  | succ k ih =>
    rw [List.replicate_succ, List.cons_append]
    unfold ofDigits at ih ⊢
    rw [List.foldl_cons]
    have : 10 * 0 + digitValue '0' = 0 := by decide
    rw [this]
    exact ih

theorem parseInt_of_head_ne (l : List Char) (h : ∀ c ∈ l, c ≠ '-') :
    parseInt l = (ofDigits l : Int) := by
  match l with
  | [] => rfl
  | c :: t =>
    have hc : c ≠ '-' := h c (List.mem_cons_self c t)
    unfold parseInt
    split
    · next heq => exact absurd (List.cons.inj heq).1 hc
    · rfl

/-- Reading back what `appendInt` writes gives the integer written. -/
theorem parseInt_appendInt (x : Int) (width : Nat) (h : x.natAbs < 10 ^ 20) :
    parseInt (appendInt x width) = x := by
  unfold appendInt
  simp only
  have hmem : ∀ c ∈ List.replicate (width - (digits 20 x.natAbs).length) '0' ++ digits 20 x.natAbs,
      c ≠ '-' := by
    intro c hc
    rw [List.mem_append] at hc
    rcases hc with hc | hc
    · rw [(List.mem_replicate.mp hc).2]; decide
    · exact digits_ne_minus _ _ c hc
  by_cases hx : x < 0
  · rw [if_pos hx, List.append_assoc, List.singleton_append]
    show -(ofDigits _ : Int) = x
    rw [ofDigits_zeros, ofDigits_digits _ _ h]
    omega
  · rw [if_neg hx, List.nil_append, parseInt_of_head_ne _ hmem, ofDigits_zeros,
      ofDigits_digits _ _ h]
    omega

theorem appendInt_two_digits : ∀ n : Fin 100,
    appendInt (n.val : Int) 2 = [Char.ofNat (48 + n.val / 10), Char.ofNat (48 + n.val % 10)] := by
  decide

theorem absDate_year_bound (abs : Nat) (h : abs < 2 ^ 64) :
    (absDate abs).1.natAbs < 10 ^ 20 := by
  obtain ⟨y, yd, hyd, hD, -⟩ := absYearDay_spec abs
  have hdate : (absDate abs).1 = (y : Int) + absoluteZeroYear := by
    unfold absDate
    rw [hyd]
  rw [hdate]
  unfold absoluteZeroYear
  norm_num at h ⊢
  omega

/-- The string `Format` writes for the instant `time.UnixMilli` builds: the
civil date and time of the wall-clock second, followed by the zone. -/
theorem FormatRFC3339_fields (loc : Location) (msec : Int)
    (h1 : -9223372036854775808 ≤ msec) (h2 : msec < 9223372036854775808)
    (h3 : -2147483648 ≤ loc.lookup (msec / 1000)) (h4 : loc.lookup (msec / 1000) < 2147483648) :
    ∃ (y : Int) (mo d h mi s : Nat), Civil.Valid y mo d h mi s ∧ y.natAbs < 10 ^ 20 ∧
      Civil.unixSeconds y mo d h mi s = msec / 1000 + loc.lookup (msec / 1000) ∧
      (UnixMilli loc msec).FormatRFC3339 =
        String.mk (appendFields y mo d h mi s (appendZone (loc.lookup (msec / 1000)))) := by
  rw [UnixMilli_eq loc msec h1 h2]
  obtain ⟨l1, l2⟩ := locabs_eq loc (msec / 1000) (msec % 1000 * 1000000) (by omega) (by omega)
    h3 h4
  obtain ⟨hv, hs⟩ := absDate_absClock_spec (msec / 1000 + loc.lookup (msec / 1000)) _ l2
  have hb : (Time.locabs ⟨msec / 1000, msec % 1000 * 1000000, loc⟩).2 < 2 ^ 64 := by
    have : (((Time.locabs ⟨msec / 1000, msec % 1000 * 1000000, loc⟩).2 : Nat) : Int)
        < 2 ^ 64 := by
      rw [l2]
      unfold unixToInternal internalToAbsolute
      norm_num
      omega
    exact_mod_cast this
  refine ⟨_, _, _, _, _, _, hv, absDate_year_bound _ hb, hs, ?_⟩
  unfold Time.FormatRFC3339
  simp only [l1]

theorem twoDigits_inj (m n : Nat) (hm : m < 100) (hn : n < 100)
    (h : appendInt (m : Int) 2 = appendInt (n : Int) 2) : m = n := by
  have h1 := parseInt_appendInt (m : Int) 2 (by norm_num; omega)
  have h2 := parseInt_appendInt (n : Int) 2 (by norm_num; omega)
  rw [h, h2] at h1
  exact_mod_cast h1.symm

theorem appendInt_two_length (n : Nat) (hn : n < 100) : (appendInt (n : Int) 2).length = 2 := by
  rw [appendInt_two_digits ⟨n, hn⟩]
  rfl

/-- The date, the clock and the zone can be read back from the bytes
`appendFields` writes. -/
theorem appendFields_inj (y y' : Int) (mo d h mi s mo' d' h' mi' s' : Nat) (z : List Char)
    (hy : y.natAbs < 10 ^ 20) (hy' : y'.natAbs < 10 ^ 20)
    (b1 : mo < 100) (b2 : d < 100) (b3 : h < 100) (b4 : mi < 100) (b5 : s < 100)
    (b1' : mo' < 100) (b2' : d' < 100) (b3' : h' < 100) (b4' : mi' < 100) (b5' : s' < 100)
    (heq : appendFields y mo d h mi s z = appendFields y' mo' d' h' mi' s' z) :
    y = y' ∧ mo = mo' ∧ d = d' ∧ h = h' ∧ mi = mi' ∧ s = s' := by
  unfold appendFields at heq
  have e1 := List.append_cancel_right heq
  have l5 := appendInt_two_length s b5
  have l5' := appendInt_two_length s' b5'
  obtain ⟨e2, f5⟩ := List.append_inj' e1 (by rw [l5, l5'])
  obtain ⟨e3, -⟩ := List.append_inj' e2 rfl
  obtain ⟨e4, f4⟩ := List.append_inj' e3
    (by rw [appendInt_two_length mi b4, appendInt_two_length mi' b4'])
  obtain ⟨e5, -⟩ := List.append_inj' e4 rfl
  obtain ⟨e6, f3⟩ := List.append_inj' e5
    (by rw [appendInt_two_length h b3, appendInt_two_length h' b3'])
  obtain ⟨e7, -⟩ := List.append_inj' e6 rfl
  obtain ⟨e8, f2⟩ := List.append_inj' e7
    (by rw [appendInt_two_length d b2, appendInt_two_length d' b2'])
  obtain ⟨e9, -⟩ := List.append_inj' e8 rfl
  obtain ⟨e10, f1⟩ := List.append_inj' e9
    (by rw [appendInt_two_length mo b1, appendInt_two_length mo' b1'])
  obtain ⟨e11, -⟩ := List.append_inj' e10 rfl
  refine ⟨?_, twoDigits_inj _ _ b1 b1' f1, twoDigits_inj _ _ b2 b2' f2,
    twoDigits_inj _ _ b3 b3' f3, twoDigits_inj _ _ b4 b4' f4, twoDigits_inj _ _ b5 b5' f5⟩
  have p1 := parseInt_appendInt y 4 hy
  have p2 := parseInt_appendInt y' 4 hy'
  rw [e11, p2] at p1
  exact p1.symm

theorem daysInMonth_le (leap : Bool) (month : Nat) : Civil.daysInMonth leap month ≤ 31 := by
  unfold Civil.daysInMonth
  split
  · split <;> omega
  · split <;> omega

theorem digits_succ (f u : Nat) :
    digits (f + 1) u =
      if u < 10 then [Char.ofNat (48 + u)]
      else digits f (u / 10) ++ [Char.ofNat (48 + u % 10)] := rfl

theorem digits_of_lt_10 (f u : Nat) (h : u < 10) : digits (f + 1) u = [Char.ofNat (48 + u)] := by
  rw [digits_succ, if_pos h]

theorem digits_of_lt_100 (f u : Nat) (h1 : 10 ≤ u) (h2 : u < 100) :
    digits (f + 2) u = [Char.ofNat (48 + u / 10), Char.ofNat (48 + u % 10)] := by
  rw [digits_succ, if_neg (by omega), digits_of_lt_10 f (u / 10) (by omega)]
  rfl

theorem digits_of_lt_1000 (f u : Nat) (h1 : 100 ≤ u) (h2 : u < 1000) :
    digits (f + 3) u =
      [Char.ofNat (48 + u / 100), Char.ofNat (48 + u / 10 % 10), Char.ofNat (48 + u % 10)] := by
  rw [digits_succ, if_neg (by omega), digits_of_lt_100 f (u / 10) (by omega) (by omega)]
  have : u / 10 / 10 = u / 100 := by omega
  rw [this]
  rfl

theorem digits_of_lt_10000 (f u : Nat) (h1 : 1000 ≤ u) (h2 : u < 10000) :
    digits (f + 4) u =
      [Char.ofNat (48 + u / 1000), Char.ofNat (48 + u / 100 % 10),
       Char.ofNat (48 + u / 10 % 10), Char.ofNat (48 + u % 10)] := by
  rw [digits_succ, if_neg (by omega), digits_of_lt_1000 f (u / 10) (by omega) (by omega)]
  have e1 : u / 10 / 100 = u / 1000 := by omega
  have e2 : u / 10 / 10 % 10 = u / 100 % 10 := by omega
  rw [e1, e2]
  rfl

/-- For a year of four digits `appendInt` writes the `4DIGIT` of RFC 3339. -/
theorem appendInt_four (n : Nat) (h : n < 10000) :
    appendInt (n : Int) 4 = Civil.fourDigits n := by
  unfold appendInt Civil.fourDigits
  simp only [Int.natAbs_ofNat]
  rw [if_neg (by omega)]
  by_cases h1 : n < 10
  · rw [digits_of_lt_10 19 n h1]
    have e1 : n / 1000 % 10 = 0 := by omega
    have e2 : n / 100 % 10 = 0 := by omega
    have e3 : n / 10 % 10 = 0 := by omega
    have e4 : n % 10 = n := by omega
    rw [e1, e2, e3, e4]
    rfl
  · by_cases h2 : n < 100
    · rw [digits_of_lt_100 18 n (by omega) h2]
      have e1 : n / 1000 % 10 = 0 := by omega
      have e2 : n / 100 % 10 = 0 := by omega
      have e3 : n / 10 % 10 = n / 10 := by omega
      rw [e1, e2, e3]
      rfl
    · by_cases h3 : n < 1000
      · rw [digits_of_lt_1000 17 n (by omega) h3]
        have e1 : n / 1000 % 10 = 0 := by omega
        have e2 : n / 100 % 10 = n / 100 := by omega
        rw [e1, e2]
        rfl
      · rw [digits_of_lt_10000 16 n (by omega) h]
        have e1 : n / 1000 % 10 = n / 1000 := by omega
        rw [e1]
        rfl

/-- For a field below 100 `appendInt` writes the `2DIGIT` of RFC 3339. -/
theorem appendInt_two (n : Nat) (h : n < 100) : appendInt (n : Int) 2 = Civil.twoDigits n := by
  rw [appendInt_two_digits ⟨n, h⟩]
  unfold Civil.twoDigits
  have e : n / 10 % 10 = n / 10 := by omega
  rw [e]

/-- For an offset of whole minutes below 100 hours the zone suffix is the
`time-offset` of RFC 3339. -/
theorem appendZone_eq_timeOffset (offset : Int) (h60 : offset % 60 = 0)
    (hb : offset.natAbs < 360000) : appendZone offset = Civil.timeOffset offset := by
  unfold appendZone Civil.timeOffset
  by_cases h0 : offset = 0
  · rw [if_pos h0, if_pos h0]
  · rw [if_neg h0, if_neg h0]
    simp only
    have hz : (Int.tdiv offset 60).natAbs = offset.natAbs / 60 := by
      by_cases hneg : offset < 0
      · rw [(tdiv_tmod_of_neg offset 60 hneg (by norm_num)).1]
        omega
      · rw [(tdiv_tmod_of_nonneg offset 60 (by omega) (by norm_num)).1]
        omega
    have hsign : (Int.tdiv offset 60 < 0) ↔ offset < 0 := by
      by_cases hneg : offset < 0
      · rw [(tdiv_tmod_of_neg offset 60 hneg (by norm_num)).1]
        omega
      · rw [(tdiv_tmod_of_nonneg offset 60 (by omega) (by norm_num)).1]
        omega
    rw [hz]
    have ha : Int.tdiv ((offset.natAbs / 60 : Nat) : Int) 60 = ((offset.natAbs / 3600 : Nat) : Int) := by
      rw [(tdiv_tmod_of_nonneg _ 60 (by omega) (by norm_num)).1]
      omega
    have hb2 : Int.tmod ((offset.natAbs / 60 : Nat) : Int) 60
        = ((offset.natAbs / 60 % 60 : Nat) : Int) := by
      rw [(tdiv_tmod_of_nonneg _ 60 (by omega) (by norm_num)).2]
      omega
    rw [ha, hb2, appendInt_two _ (by omega), appendInt_two _ (by omega)]
    by_cases hneg : offset < 0
    · rw [if_pos (hsign.mpr hneg), if_pos hneg]
    · rw [if_neg (fun hc => hneg (hsign.mp hc)), if_neg hneg]

/-- For a date in the years 0 to 9999 and an offset of whole minutes the
bytes `appendFields` writes are the `date-time` of RFC 3339. -/
theorem appendFields_eq_rfc3339 (y : Int) (mo d h mi s : Nat) (offset : Int)
    (hy0 : 0 ≤ y) (hy1 : y ≤ 9999) (b1 : mo < 100) (b2 : d < 100) (b3 : h < 100)
    (b4 : mi < 100) (b5 : s < 100) (h60 : offset % 60 = 0) (hb : offset.natAbs < 360000) :
    String.mk (appendFields y mo d h mi s (appendZone offset))
      = Civil.rfc3339 y mo d h mi s offset := by
  unfold appendFields Civil.rfc3339
  have hy : y = ((y.toNat : Nat) : Int) := by omega
  rw [appendZone_eq_timeOffset offset h60 hb, appendInt_two mo b1, appendInt_two d b2,
    appendInt_two h b3, appendInt_two mi b4, appendInt_two s b5]
  conv_lhs => rw [hy]
  rw [appendInt_four y.toNat (by omega)]

theorem dayOfYear_le_fin : ∀ leap : Bool, ∀ mo : Fin 13,
    Civil.daysBeforeMonth leap mo.val + Civil.daysInMonth leap mo.val
      ≤ if leap then 366 else 365 := by
  decide

/-- A valid date of the years 0 to 9999 is what the Unix seconds between
0000-01-01T00:00:00 and 9999-12-31T23:59:59 denote. -/
theorem civil_year_range (y : Int) (mo d h mi s : Nat) (w : Int)
    (hv : Civil.Valid y mo d h mi s) (hs : Civil.unixSeconds y mo d h mi s = w)
    (h0 : -62167219200 ≤ w) (h1 : w ≤ 253402300799) : 0 ≤ y ∧ y ≤ 9999 := by
  have hdoy := dayOfYear_le_fin (Civil.isLeapYear y) ⟨mo, by have := hv.month_le; omega⟩
  simp only at hdoy
  have hd := hv.day_le
  have hdp := hv.day_pos
  have hh := hv.hour_lt
  have hm := hv.min_lt
  have hsec := hv.sec_lt
  simp only [Civil.unixSeconds, Civil.unixDay, Civil.daysBeforeYear] at hs
  generalize Civil.daysBeforeMonth (Civil.isLeapYear y) mo = dbm at *
  generalize Civil.daysInMonth (Civil.isLeapYear y) mo = dim at *
  have hcases : y ≤ -2 ∨ y = -1 ∨ (0 ≤ y ∧ y ≤ 9999) ∨ y = 10000 ∨ 10001 ≤ y := by omega
  by_cases hl : Civil.isLeapYear y = true
  · rw [hl] at hdoy
    simp only [if_true] at hdoy
    simp only [Civil.isLeapYear, decide_eq_true_eq] at hl
    obtain ⟨l1, l2⟩ := hl
    rcases hcases with hc | hc | hc | hc | hc
    · omega
    · omega
    · exact hc
    · subst hc; omega
    · omega
  · simp only [Bool.not_eq_true] at hl
    rw [hl] at hdoy
    simp only [Bool.false_eq_true, if_false] at hdoy
    rcases hcases with hc | hc | hc | hc | hc
    · omega
    · subst hc; omega
    · exact hc
    · subst hc; omega
    · omega

end GoTime

/-! ## The timestamps -/

namespace GoTime

set_option maxRecDepth 100000 in
/-- C2, as stated, fails: in a process whose local zone is five hours west
of UTC the remote value 1700000000000 is rendered with the local clock and
the offset `-05:00`, not as `2023-11-14T22:13:20Z`, the rendering in
UTC. -/
theorem FormatRFC3339_local_zone_not_utc :
    (UnixMilli (FixedZone (-18000)) 1700000000000).FormatRFC3339 = "2023-11-14T17:13:20-05:00" ∧
    (UnixMilli UTC 1700000000000).FormatRFC3339 = "2023-11-14T22:13:20Z" ∧
    (UnixMilli (FixedZone (-18000)) 1700000000000).FormatRFC3339
      ≠ (UnixMilli UTC 1700000000000).FormatRFC3339 := by
  decide

/-- C2 (amended): for a remote value `msec` of Go's `int64`, the timestamp
string is the RFC 3339 layout of the civil date and time of day, in the
local zone of the process, of the instant `msec` milliseconds after the
Unix epoch, cut to the whole second, followed by the offset of that zone
(for a date of the years 0 to 9999 and an offset of whole minutes, the
`date-time` of RFC 3339); when that offset is zero the suffix is `Z` and
the string is the rendering in UTC. -/
theorem FormatRFC3339_UnixMilli_local (loc : Location) (msec : Int)
    (h1 : -9223372036854775808 ≤ msec) (h2 : msec < 9223372036854775808)
    (h3 : -2147483648 ≤ loc.lookup (msec / 1000)) (h4 : loc.lookup (msec / 1000) < 2147483648) :
    (∃ (y : Int) (mo d h mi s : Nat), Civil.Valid y mo d h mi s ∧
      Civil.unixSeconds y mo d h mi s = msec / 1000 + loc.lookup (msec / 1000) ∧
      (UnixMilli loc msec).FormatRFC3339 =
        String.mk (appendFields y mo d h mi s (appendZone (loc.lookup (msec / 1000)))) ∧
      (-62167219200 ≤ msec / 1000 + loc.lookup (msec / 1000) →
        msec / 1000 + loc.lookup (msec / 1000) ≤ 253402300799 →
        loc.lookup (msec / 1000) % 60 = 0 → (loc.lookup (msec / 1000)).natAbs < 360000 →
        (UnixMilli loc msec).FormatRFC3339 =
          Civil.rfc3339 y mo d h mi s (loc.lookup (msec / 1000)))) ∧
    (loc.lookup (msec / 1000) = 0 →
      appendZone (loc.lookup (msec / 1000)) = ['Z'] ∧
      (UnixMilli loc msec).FormatRFC3339 = (UnixMilli UTC msec).FormatRFC3339) := by
  constructor
  · obtain ⟨y, mo, d, h, mi, s, hv, -, hs, hf⟩ := FormatRFC3339_fields loc msec h1 h2 h3 h4
    refine ⟨y, mo, d, h, mi, s, hv, hs, hf, ?_⟩
    intro hlo hhi h60 hb
    obtain ⟨hy0, hy1⟩ := civil_year_range y mo d h mi s _ hv hs hlo hhi
    have hd := daysInMonth_le (Civil.isLeapYear y) mo
    rw [hf]
    exact appendFields_eq_rfc3339 y mo d h mi s _ hy0 hy1
      (by have := hv.month_le; omega) (by have := hv.day_le; omega)
      (by have := hv.hour_lt; omega) (by have := hv.min_lt; omega)
      (by have := hv.sec_lt; omega) h60 hb
  · intro h0
    refine ⟨by rw [h0]; rfl, ?_⟩
    rw [UnixMilli_eq loc msec h1 h2, UnixMilli_eq UTC msec h1 h2]
    unfold Time.FormatRFC3339 Time.locabs
    simp only [h0]
    rfl

set_option maxRecDepth 100000 in
/-- C2, witness: in UTC the remote value 1700000000000 is rendered as
`2023-11-14T22:13:20Z`, the `date-time` of RFC 3339 for the civil date and
time of the Unix second 1700000000. -/
theorem FormatRFC3339_UnixMilli_local_witness :
    (UnixMilli UTC 1700000000000).FormatRFC3339 = "2023-11-14T22:13:20Z" ∧
    Civil.unixSeconds 2023 11 14 22 13 20 = 1700000000 ∧
    Civil.rfc3339 2023 11 14 22 13 20 0 = "2023-11-14T22:13:20Z" ∧
    ∃ (y : Int) (mo d h mi s : Nat), Civil.Valid y mo d h mi s ∧
      Civil.unixSeconds y mo d h mi s = 1700000000 ∧
      (UnixMilli UTC 1700000000000).FormatRFC3339 = Civil.rfc3339 y mo d h mi s 0 := by
  refine ⟨by decide, by decide, by decide, ?_⟩
  obtain ⟨y, mo, d, h, mi, s, hv, hs, -, hr⟩ :=
    (FormatRFC3339_UnixMilli_local UTC 1700000000000 (by decide) (by decide) (by decide)
      (by decide)).1
  exact ⟨y, mo, d, h, mi, s, hv, hs, hr (by decide) (by decide) (by decide) (by decide)⟩

set_option maxRecDepth 100000 in
/-- C8, as stated, fails: the remote values 1700000000000 and 1700000000001
differ by one millisecond within the same second and are rendered as the
same string. -/
theorem FormatRFC3339_drops_milliseconds :
    (1700000000000 : Int) ≠ 1700000000001 ∧
    (UnixMilli UTC 1700000000000).FormatRFC3339 = "2023-11-14T22:13:20Z" ∧
    (UnixMilli UTC 1700000000001).FormatRFC3339 = "2023-11-14T22:13:20Z" := by
  decide

/-- C8 (amended): the conversion is exact to the whole second.  Two remote
values of Go's `int64` in the same second are rendered as the same string;
two values in different seconds at which the same zone offset is in effect
(as always in UTC) are rendered as different strings. -/
theorem FormatRFC3339_second_granularity (loc : Location) (ms1 ms2 : Int)
    (h1 : -9223372036854775808 ≤ ms1) (h2 : ms1 < 9223372036854775808)
    (h3 : -9223372036854775808 ≤ ms2) (h4 : ms2 < 9223372036854775808)
    (h5 : -2147483648 ≤ loc.lookup (ms1 / 1000)) (h6 : loc.lookup (ms1 / 1000) < 2147483648)
    (h7 : -2147483648 ≤ loc.lookup (ms2 / 1000)) (h8 : loc.lookup (ms2 / 1000) < 2147483648) :
    (ms1 / 1000 = ms2 / 1000 →
      (UnixMilli loc ms1).FormatRFC3339 = (UnixMilli loc ms2).FormatRFC3339) ∧
    (loc.lookup (ms1 / 1000) = loc.lookup (ms2 / 1000) → ms1 / 1000 ≠ ms2 / 1000 →
      (UnixMilli loc ms1).FormatRFC3339 ≠ (UnixMilli loc ms2).FormatRFC3339) := by
  constructor
  · intro hsec
    rw [UnixMilli_eq loc ms1 h1 h2, UnixMilli_eq loc ms2 h3 h4, hsec]
    rfl
  · intro hoff hne heq
    obtain ⟨y, mo, d, h, mi, s, hv, hy, hs, hf⟩ := FormatRFC3339_fields loc ms1 h1 h2 h5 h6
    obtain ⟨y', mo', d', h', mi', s', hv', hy', hs', hf'⟩ :=
      FormatRFC3339_fields loc ms2 h3 h4 h7 h8
    rw [hf, hf', hoff] at heq
    have hdata := congrArg String.data heq
    simp only at hdata
    have hd := daysInMonth_le (Civil.isLeapYear y) mo
    have hd' := daysInMonth_le (Civil.isLeapYear y') mo'
    obtain ⟨e1, e2, e3, e4, e5, e6⟩ := appendFields_inj y y' mo d h mi s mo' d' h' mi' s' _ hy hy'
      (by have := hv.month_le; omega) (by have := hv.day_le; omega)
      (by have := hv.hour_lt; omega) (by have := hv.min_lt; omega)
      (by have := hv.sec_lt; omega)
      (by have := hv'.month_le; omega) (by have := hv'.day_le; omega)
      (by have := hv'.hour_lt; omega) (by have := hv'.min_lt; omega)
      (by have := hv'.sec_lt; omega) hdata
    rw [e1, e2, e3, e4, e5, e6, hs'] at hs
    omega

set_option maxRecDepth 100000 in
/-- C8, witness: in UTC the values 1700000000000 and 1700000000999 are
rendered alike, the values 1700000000999 and 1700000001000 differently. -/
theorem FormatRFC3339_second_granularity_witness :
    (UnixMilli UTC 1700000000000).FormatRFC3339 = (UnixMilli UTC 1700000000999).FormatRFC3339 ∧
    (UnixMilli UTC 1700000000999).FormatRFC3339 ≠ (UnixMilli UTC 1700000001000).FormatRFC3339 :=
  ⟨(FormatRFC3339_second_granularity UTC 1700000000000 1700000000999 (by decide) (by decide)
      (by decide) (by decide) (by decide) (by decide) (by decide) (by decide)).1 (by decide),
   (FormatRFC3339_second_granularity UTC 1700000000999 1700000001000 (by decide) (by decide)
      (by decide) (by decide) (by decide) (by decide) (by decide) (by decide)).2 rfl
      (by decide)⟩

end GoTime

/-! ## The record of a successful read -/

namespace opensearchserverless

open basetypes diag

set_option maxRecDepth 100000 in
/-- C1, as stated, fails: in a process whose local zone is five hours west
of UTC, the end-to-end example stores the timestamps
`2023-11-14T17:13:20-05:00` and `2023-11-14T18:13:20-05:00`, not the
record with `2023-11-14T22:13:20Z` and `2023-11-14T23:13:20Z`. -/
theorem Read_end_to_end_local_zone :
    Read (examples.runtimeIn (GoTime.FixedZone (-18000))
        (examples.serviceWith "lp1" "RETENTION" examples.policyLp1))
      (examples.requestFor "lp1" "RETENTION") examples.emptyResponse =
      some ⟨some ⟨.known "2023-11-14T17:13:20-05:00", .known "desc", .known "lp1",
        .known "2023-11-14T18:13:20-05:00", .known "lp1", .known "\x7b\"Rules\":[]\x7d",
        .known "v1", .known "RETENTION"⟩, []⟩ ∧
    Read (examples.runtimeIn (GoTime.FixedZone (-18000))
        (examples.serviceWith "lp1" "RETENTION" examples.policyLp1))
      (examples.requestFor "lp1" "RETENTION") examples.emptyResponse ≠
      some ⟨some ⟨.known "2023-11-14T22:13:20Z", .known "desc", .known "lp1",
        .known "2023-11-14T23:13:20Z", .known "lp1", .known "\x7b\"Rules\":[]\x7d",
        .known "v1", .known "RETENTION"⟩, []⟩ := by
  decide

/-- C1 (amended): when the configuration decoded without error, the lookup
returned the remote record `out` and its policy document serialized to `b`,
`Read` returns, adds no diagnostic and stores a record with `id` and `name`
the remote name, `description` the remote description, `type` the string of
the remote type, `policy_version` the remote version, `created_date` and
`last_modified_date` the RFC 3339 rendering, in the local zone of the
process, of the remote epoch-millisecond values, and `policy` the
serialized document; in a process whose local zone is UTC the timestamps
are the renderings in UTC. -/
theorem Read_success_record (rt : Runtime) (req : ReadRequest) (resp : ReadResponse)
    (out : awstypes.LifecyclePolicyDetail) (b : String)
    (hget : (resp.Diagnostics.Append req.ConfigGet.2).HasError = false)
    (hfind : rt.findLifecyclePolicyByNameAndType req.ConfigGet.1.Name.ValueString
      req.ConfigGet.1.Type_.ValueString = .ok out)
    (hdoc : out.Policy = some ⟨.ok b⟩) :
    ∃ r : ReadResponse, Read rt req resp = some r ∧
      r.Diagnostics = resp.Diagnostics.Append req.ConfigGet.2 ∧
      r.Diagnostics.HasError = false ∧
      ∃ data, r.State = some data ∧
        data.ID = flex.StringToFramework out.Name ∧
        data.Name = flex.StringToFramework out.Name ∧
        data.Description = flex.StringToFramework out.Description ∧
        data.Type_.ValueString = out.Type_ ∧
        (out.Type_ ≠ "" → data.Type_ = .known out.Type_) ∧
        data.PolicyVersion = flex.StringToFramework out.PolicyVersion ∧
        data.CreatedDate =
          .known (GoTime.UnixMilli rt.Local (aws.ToInt64 out.CreatedDate)).FormatRFC3339 ∧
        data.LastModifiedDate =
          .known (GoTime.UnixMilli rt.Local (aws.ToInt64 out.LastModifiedDate)).FormatRFC3339 ∧
        data.Policy = .known b ∧
        (rt.Local = GoTime.UTC →
          data.CreatedDate =
            .known (GoTime.UnixMilli GoTime.UTC (aws.ToInt64 out.CreatedDate)).FormatRFC3339 ∧
          data.LastModifiedDate =
            .known (GoTime.UnixMilli GoTime.UTC
              (aws.ToInt64 out.LastModifiedDate)).FormatRFC3339) := by
  refine ⟨_, Read_of_marshal_ok rt req resp out b hget hfind hdoc, rfl, hget, _, rfl, rfl, rfl,
    rfl, ?_, ?_, rfl, rfl, rfl, rfl, ?_⟩
  · exact flex.ValueString_StringValueToFramework out.Type_
  · intro hne
    show flex.StringValueToFramework out.Type_ = _
    unfold flex.StringValueToFramework
    rw [if_neg hne]
    rfl
  · intro hutc
    rw [hutc]
    exact ⟨rfl, rfl⟩

set_option maxRecDepth 100000 in
/-- C1, witness: in a process whose local zone is UTC, the key
(lp1, RETENTION) with the remote record of the end-to-end example yields
the record with identifier lp1, createdAt `2023-11-14T22:13:20Z` and
lastModifiedAt `2023-11-14T23:13:20Z`, and no diagnostic. -/
theorem Read_success_record_witness :
    (∃ r : ReadResponse,
      Read (examples.runtimeIn GoTime.UTC
          (examples.serviceWith "lp1" "RETENTION" examples.policyLp1))
        (examples.requestFor "lp1" "RETENTION") examples.emptyResponse = some r ∧
      r.Diagnostics = []) ∧
    Read (examples.runtimeIn GoTime.UTC
        (examples.serviceWith "lp1" "RETENTION" examples.policyLp1))
      (examples.requestFor "lp1" "RETENTION") examples.emptyResponse =
      some ⟨some ⟨.known "2023-11-14T22:13:20Z", .known "desc", .known "lp1",
        .known "2023-11-14T23:13:20Z", .known "lp1", .known "\x7b\"Rules\":[]\x7d",
        .known "v1", .known "RETENTION"⟩, []⟩ := by
  constructor
  · obtain ⟨r, h1, h2, _⟩ := Read_success_record
      (examples.runtimeIn GoTime.UTC (examples.serviceWith "lp1" "RETENTION" examples.policyLp1))
      (examples.requestFor "lp1" "RETENTION") examples.emptyResponse examples.policyLp1
      "\x7b\"Rules\":[]\x7d" (by decide)
      (by simp [examples.runtimeIn, examples.serviceWith, examples.requestFor,
        StringValue.ValueString]) rfl
    exact ⟨r, h1, h2⟩
  · decide

end opensearchserverless
